import Mathlib

/-!
Verification of the navira CAR (Content Addressable aRchive) codec.

This file gives a shallow embedding, in Lean 4, of the sans-I/O CAR reader
of the navira repository (crate `navira-car`), and proves or refutes the
specification claims about it.

Modelling conventions:
* Rust byte slices become `List Nat` (each element a byte value).
* Rust `u64`/`usize` arithmetic is modelled on `Nat`, with an explicit
  `% 2 ^ 64` exactly where the Rust code can wrap, and `i64` becomes `Int`
  (two's-complement bit patterns are tracked as `Nat` values below `2 ^ 64`
  and converted at the boundary).
* Fallible Rust functions returning `Result`/`Option` become `Except`/`Option`.
  A Rust function that can panic (index out of bounds, debug-mode integer
  overflow) is wrapped in one more `Option` layer, `none` meaning a panic.
* Source loops whose iteration count is bounded (LEB128 emits at most ten
  bytes for a `u64`) are written with an explicit fuel argument large enough
  to cover every reachable input, so that every definition stays structurally
  recursive and kernel-evaluable.
-/

set_option autoImplicit false

namespace Navira

/-! ## Varint codec — `wire/varint.rs`

LEB128 unsigned and signed variable-length integers. -/

/-- Loop body of `UnsignedVarint::encode`.  Each iteration emits the low
seven bits and shifts; the continuation bit `0x80` is set on every byte but
the last.  `fuel` bounds the number of iterations; ten iterations suffice
for any `u64` value (`128 ^ 10 = 2 ^ 70 > 2 ^ 64`). -/
def UnsignedVarint.encodeAux : Nat → Nat → List Nat
  | 0, _ => []
  | fuel + 1, v =>
    let b := v % 128
    let v2 := v / 128
    if v2 = 0 then [b] else (b + 128) :: UnsignedVarint.encodeAux fuel v2

/-- Model of `UnsignedVarint::encode` (value is a `u64`, here a `Nat`
below `2 ^ 64`). -/
def UnsignedVarint.encode (v : Nat) : List Nat :=
  UnsignedVarint.encodeAux 10 v

/-- Loop body of `UnsignedVarint::decode`: `i` counts bytes consumed,
`shift` is the current bit position, `result` the accumulated `u64`.
The source computes `result |= (byte & 0x7F) << shift` on `u64` (the shift
wraps modulo `2 ^ 64`), returns on a byte with the high bit clear, and
rejects the varint once the shift reaches 64 bits. -/
def UnsignedVarint.decodeAux : List Nat → Nat → Nat → Nat → Option (Nat × Nat)
  | [], _, _, _ => none
  | b :: rest, i, shift, result =>
    let value := b % 128
    let result2 := (result ||| (value <<< shift)) % 2 ^ 64
    if b &&& 128 = 0 then some (result2, i + 1)
    else if shift + 7 ≥ 64 then none
    else UnsignedVarint.decodeAux rest (i + 1) (shift + 7) result2

/-- Model of `UnsignedVarint::decode`. -/
def UnsignedVarint.decode (bytes : List Nat) : Option (Nat × Nat) :=
  UnsignedVarint.decodeAux bytes 0 0 0

/-- Loop body of `SignedVarint::encode`.  The Rust loop computes
`byte = value & 0x7F` and then `value >>= 7` with sign extension; on `Int`
that combination is exactly `emod 128` and `fdiv 128`.  The loop stops when
the remaining value is 0 (resp. -1) and the sign bit `0x40` of the emitted
byte agrees.  Eleven units of fuel cover every `i64` (ten bytes emitted at
most, e.g. for `i64::MIN`). -/
def SignedVarint.encodeAux : Nat → Int → List Nat
  | 0, _ => []
  | fuel + 1, v =>
    let b := (v.emod 128).toNat
    let v2 := v.fdiv 128
    if (v2 = 0 ∧ b &&& 64 = 0) ∨ (v2 = -1 ∧ b &&& 64 ≠ 0) then [b]
    else (b + 128) :: SignedVarint.encodeAux fuel v2

/-- Model of `SignedVarint::encode` (value is an `i64`, here an `Int` in
`[-2 ^ 63, 2 ^ 63)`). -/
def SignedVarint.encode (v : Int) : List Nat :=
  SignedVarint.encodeAux 11 v

/-- Reinterpret a 64-bit pattern (a `Nat` below `2 ^ 64`) as an `i64`. -/
def toInt64 (n : Nat) : Int :=
  if n < 2 ^ 63 then (n : Int) else (n : Int) - 2 ^ 64

/-- Loop body of `SignedVarint::decode`.  The accumulator is kept as the
64-bit two's-complement pattern of the Rust `i64` `result`; on the final
byte, if the sign bit `0x40` is set and fewer than 64 bits were consumed,
`result |= -1 << shift` sign-extends the pattern. -/
def SignedVarint.decodeAux : List Nat → Nat → Nat → Nat → Option (Int × Nat)
  | [], _, _, _ => none
  | b :: rest, i, shift, result =>
    let value := b % 128
    let result2 := (result ||| (value <<< shift)) % 2 ^ 64
    let shift2 := shift + 7
    if b &&& 128 = 0 then
      if shift2 < 64 ∧ b &&& 64 ≠ 0 then
        some (toInt64 ((result2 ||| (2 ^ 64 - 2 ^ shift2)) % 2 ^ 64), i + 1)
      else
        some (toInt64 result2, i + 1)
    else if shift2 ≥ 64 then none
    else SignedVarint.decodeAux rest (i + 1) shift2 result2

/-- Model of `SignedVarint::decode`. -/
def SignedVarint.decode (bytes : List Nat) : Option (Int × Nat) :=
  SignedVarint.decodeAux bytes 0 0 0

/-! ## Raw CID — `wire/cid.rs` -/

/-- Opaque content identifier: a wrapper around its raw bytes
(`RawCid(Vec<u8>)`). -/
structure RawCid where
  bytes : List Nat
deriving DecidableEq, Repr

/-- Error type `CidFormatError`. -/
inductive CidFormatError where
  | insufficientData
  | unsupportedVersion
deriving DecidableEq, Repr

/-- Decidable equality for `Except`, used to evaluate the parsers on
concrete inputs. -/
instance {ε α : Type} [DecidableEq ε] [DecidableEq α] : DecidableEq (Except ε α) := fun x y =>
  match x, y with
  | .ok a, .ok b =>
    if h : a = b then .isTrue (congrArg Except.ok h)
    else .isFalse fun hc => h (Except.ok.inj hc)
  | .error a, .error b =>
    if h : a = b then .isTrue (congrArg Except.error h)
    else .isFalse fun hc => h (Except.error.inj hc)
  | .ok _, .error _ => .isFalse fun hc => Except.noConfusion hc
  | .error _, .ok _ => .isFalse fun hc => Except.noConfusion hc

/-- Model of `RawCid::try_read_bytes`: a length-only parser recognising
CIDv0 (`0x12 0x20`, 34 bytes) and CIDv1 (`0x01`, three unsigned varints
followed by the multihash digest). -/
def RawCid.try_read_bytes (bytes : List Nat) : Except CidFormatError (RawCid × Nat) :=
  if bytes.length < 2 then .error .insufficientData
  else if [0x12, 0x20].isPrefixOf bytes then
    if bytes.length < 34 then .error .insufficientData
    else .ok (⟨bytes.take 34⟩, 34)
  else if bytes.headI = 0x01 then
    match UnsignedVarint.decode (bytes.drop 1) with
    | none => .error .insufficientData
    | some (_multicodec, mcSize) =>
      let mhStart := 1 + mcSize
      match UnsignedVarint.decode (bytes.drop mhStart) with
      | none => .error .insufficientData
      | some (_mhCode, mhCodeSize) =>
        let mhLenStart := mhStart + mhCodeSize
        match UnsignedVarint.decode (bytes.drop mhLenStart) with
        | none => .error .insufficientData
        | some (mhLen, mhLenSize) =>
          let totalCidSize := 1 + mcSize + mhCodeSize + mhLenSize + mhLen
          if bytes.length < totalCidSize then .error .insufficientData
          else .ok (⟨bytes.take totalCidSize⟩, totalCidSize)
  else .error .unsupportedVersion

/-! ## v1 sections — `wire/v1/data.rs` -/

/-- Block-size ceiling (2 MiB). -/
def MAX_BLOCK_SIZE : Nat := 2 ^ 21

/-- Section-size ceiling (2 MiB plus overhead for CID and varint). -/
def MAX_SECTION_SIZE : Nat := MAX_BLOCK_SIZE + 128

/-- Error type `SectionFormatError`. -/
inductive SectionFormatError where
  | insufficientData
  | invalidCid (e : CidFormatError)
  | invalidSize (n : Nat)
deriving DecidableEq, Repr

/-- A data block (`Block(Vec<u8>)`). -/
structure Block where
  data : List Nat
deriving DecidableEq, Repr

/-- Location of a section in the CAR file: absolute offset and total
length including the varint prefix. -/
structure SectionLocation where
  offset : Nat
  length : Nat
deriving DecidableEq, Repr

/-- A v1 section: declared length (excluding the varint prefix), CID and
block. -/
structure Section where
  length : Nat
  cid : RawCid
  block : Block
deriving DecidableEq, Repr

/-- A section together with its location.  The source names the first
field `section`, a reserved word in Lean, hence `sect` here. -/
structure LocatableSection where
  sect : Section
  location : SectionLocation
deriving DecidableEq, Repr

/-- Model of `Section::try_read_header_bytes`: parse the length varint and
the CID only, returning a header-only section (empty block) and the total
section size.  The outer `Option` is `none` exactly when the Rust
subtraction `length_varint as usize - cid_size` would underflow, which is
a panic under debug-mode overflow checking. -/
def Section.try_read_header_bytes (bytes : List Nat) :
    Option (Except SectionFormatError (Section × Nat)) :=
  match UnsignedVarint.decode bytes with
  | none =>
    if bytes.length > 16 then some (.error (.invalidSize (MAX_BLOCK_SIZE + 1)))
    else some (.error .insufficientData)
  | some (lengthVarint, varintSize) =>
    if lengthVarint > MAX_SECTION_SIZE then some (.error (.invalidSize lengthVarint))
    else
      match RawCid.try_read_bytes (bytes.drop varintSize) with
      | .error .insufficientData => some (.error .insufficientData)
      | .error e => some (.error (.invalidCid e))
      | .ok (cid, cidSize) =>
        if lengthVarint < cidSize then none
        else
          let blockSize := lengthVarint - cidSize
          some (.ok (⟨lengthVarint, cid, ⟨[]⟩⟩, varintSize + cidSize + blockSize))

/-- Model of `Section::try_read_bytes`: parse the length varint, the CID
and the block payload.  The outer `Option` is `none` exactly when the Rust
subtraction `length_varint as usize - cid_size` would underflow (a panic
under debug-mode overflow checking). -/
def Section.try_read_bytes (bytes : List Nat) :
    Option (Except SectionFormatError (Section × Nat)) :=
  match UnsignedVarint.decode bytes with
  | none =>
    if bytes.length > 16 then some (.error (.invalidSize (MAX_BLOCK_SIZE + 1)))
    else some (.error .insufficientData)
  | some (lengthVarint, varintSize) =>
    if lengthVarint > MAX_SECTION_SIZE then some (.error (.invalidSize lengthVarint))
    else
      match RawCid.try_read_bytes (bytes.drop varintSize) with
      | .error .insufficientData => some (.error .insufficientData)
      | .error e => some (.error (.invalidCid e))
      | .ok (cid, cidSize) =>
        if lengthVarint < cidSize then none
        else
          let blockSize := lengthVarint - cidSize
          if bytes.length < varintSize + cidSize + blockSize then
            some (.error .insufficientData)
          else
            let blockData := (bytes.drop (varintSize + cidSize)).take blockSize
            some (.ok (⟨lengthVarint, cid, ⟨blockData⟩⟩, varintSize + cidSize + blockSize))

/-- Model of `Section::to_bytes`: the varint-encoded length, the CID bytes
and the block payload. -/
def Section.to_bytes (s : Section) : List Nat :=
  UnsignedVarint.encode s.length ++ s.cid.bytes ++ s.block.data

/-! ## CBOR values — the `ciborium::Value` boundary

The Rust code serialises CIDs through `ciborium::Value` (tag 42 around a
byte string) and decodes the v1 header with `ciborium::from_reader`.  The
`CborValue` type models `ciborium::Value` on the variants CAR headers use;
the byte-level parser below models ciborium's decoder on the
definite-length encodings that appear in CAR headers. -/

/-- Subset of `ciborium::Value` used by the CAR codec: integers, byte
strings, text strings (UTF-8 bytes), arrays, maps and tags. -/
inductive CborValue where
  | integer (n : Int)
  | bytes (b : List Nat)
  | text (s : List Nat)
  | array (items : List CborValue)
  | map (entries : List (CborValue × CborValue))
  | tag (t : Nat) (v : CborValue)

/-- Error of the `Deserialize` impl for `RawCid` (the source raises a
custom serde error with a fixed message). -/
inductive CborDeserializeError where
  | invalidCidFormat
deriving DecidableEq, Repr

/-- Model of `impl Serialize for RawCid`: the CID is emitted as CBOR tag
42 wrapping a byte string holding exactly the raw CID bytes. -/
def RawCid.serializeCbor (c : RawCid) : CborValue :=
  .tag 42 (.bytes c.bytes)

/-- Model of `impl Deserialize for RawCid`: accept exactly tag 42 around a
byte string, and use the byte-string contents unchanged (the source is a
pair of `if let` patterns falling through to a custom serde error). -/
def RawCid.deserializeCbor : CborValue → Except CborDeserializeError RawCid
  | .tag t inner =>
    if t = 42 then
      match inner with
      | .bytes bs => .ok ⟨bs⟩
      | _ => .error .invalidCidFormat
    else .error .invalidCidFormat
  | _ => .error .invalidCidFormat

/-- CBOR initial-byte argument: the additional-information field and, for
values 24-27, the following big-endian bytes.  Indefinite lengths and the
reserved values are not used by CAR headers and are rejected. -/
def cborArg (info : Nat) (rest : List Nat) : Option (Nat × List Nat) :=
  if info < 24 then some (info, rest)
  else if info = 24 then
    match rest with
    | a :: r => some (a, r)
    | [] => none
  else if info = 25 then
    match rest with
    | a :: b :: r => some (a * 256 + b, r)
    | _ => none
  else if info = 26 then
    match rest with
    | a :: b :: c :: d :: r => some (((a * 256 + b) * 256 + c) * 256 + d, r)
    | _ => none
  else if info = 27 then
    match rest with
    | a :: b :: c :: d :: e :: f :: g :: h :: r =>
      some ((((((a * 256 + b) * 256 + c) * 256 + d) * 256 + e) * 256 + f) * 256 * 256 + g * 256 + h, r)
    | _ => none
  else none

/-- Parse `n` consecutive CBOR items with the given single-item parser. -/
def cborItems (parse1 : List Nat → Option (CborValue × List Nat)) :
    Nat → List Nat → Option (List CborValue × List Nat)
  | 0, bs => some ([], bs)
  | n + 1, bs =>
    match parse1 bs with
    | none => none
    | some (v, r) =>
      match cborItems parse1 n r with
      | none => none
      | some (vs, r2) => some (v :: vs, r2)

/-- Group a flat list of map items into key-value pairs. -/
def cborPairs : List CborValue → List (CborValue × CborValue)
  | [] => []
  | [_] => []
  | k :: v :: rest => (k, v) :: cborPairs rest

/-- One CBOR item from the front of the buffer (definite lengths only;
major type 7 is not used by CAR headers and is rejected).  `fuel` bounds
the nesting depth; one unit per parsed item always suffices when it starts
at `bytes.length + 1`. -/
def cborParse : Nat → List Nat → Option (CborValue × List Nat)
  | 0, _ => none
  | fuel + 1, bs =>
    match bs with
    | [] => none
    | b :: rest =>
      match cborArg (b % 32) rest with
      | none => none
      | some (n, r) =>
        if b / 32 = 0 then some (.integer (n : Int), r)
        else if b / 32 = 1 then some (.integer (-1 - (n : Int)), r)
        else if b / 32 = 2 then
          if n ≤ r.length then some (.bytes (r.take n), r.drop n) else none
        else if b / 32 = 3 then
          if n ≤ r.length then some (.text (r.take n), r.drop n) else none
        else if b / 32 = 4 then
          match cborItems (cborParse fuel) n r with
          | none => none
          | some (vs, r2) => some (.array vs, r2)
        else if b / 32 = 5 then
          match cborItems (cborParse fuel) (2 * n) r with
          | none => none
          | some (vs, r2) => some (.map (cborPairs vs), r2)
        else if b / 32 = 6 then
          match cborParse fuel r with
          | none => none
          | some (v, r2) => some (.tag n v, r2)
        else none

/-- UTF-8 bytes of the map key `roots`. -/
def strRoots : List Nat := [0x72, 0x6F, 0x6F, 0x74, 0x73]

/-- UTF-8 bytes of the map key `version`. -/
def strVersion : List Nat := [0x76, 0x65, 0x72, 0x73, 0x69, 0x6F, 0x6E]

/-- The v1 header `CarHeader { version: u64, roots: Vec<_> }`; roots are
raw CIDs, decoded through the tag-42 framing. -/
structure CarHeader where
  version : Nat
  roots : List RawCid
deriving DecidableEq, Repr

/-- A root entry must be tag 42 around a byte string. -/
def rawCidOfCbor : CborValue → Option RawCid
  | .tag 42 (.bytes bs) => some ⟨bs⟩
  | _ => none

/-- Decode every root entry. -/
def rootsOfCbor : List CborValue → Option (List RawCid)
  | [] => some []
  | v :: rest =>
    match rawCidOfCbor v with
    | none => none
    | some c =>
      match rootsOfCbor rest with
      | none => none
      | some cs => some (c :: cs)

/-- Serde-style struct decoding over the parsed map: the fields `version`
and `roots` must each appear exactly once with the right type, other text
keys are skipped (serde's default for unknown fields), non-text keys are
rejected. -/
def scanHeaderEntries : List (CborValue × CborValue) → Option Nat → Option (List RawCid) →
    Option CarHeader
  | [], some v, some r => some ⟨v, r⟩
  | [], some _, none => none
  | [], none, _ => none
  | (k, val) :: rest, ver, roots =>
    match k with
    | .text s =>
      if s = strVersion then
        match ver with
        | some _ => none
        | none =>
          match val with
          | .integer n =>
            if 0 ≤ n ∧ n < 2 ^ 64 then scanHeaderEntries rest (some n.toNat) roots else none
          | _ => none
      else if s = strRoots then
        match roots with
        | some _ => none
        | none =>
          match val with
          | .array items =>
            match rootsOfCbor items with
            | none => none
            | some cs => scanHeaderEntries rest ver (some cs)
          | _ => none
      else scanHeaderEntries rest ver roots
    | _ => none

/-- Model of `ciborium::from_reader::<CarHeader>` on a byte slice: parse
one CBOR item (trailing bytes are not an error) and extract the struct. -/
def ciboriumDecodeCarHeader (bytes : List Nat) : Option CarHeader :=
  match cborParse (bytes.length + 1) bytes with
  | none => none
  | some (v, _) =>
    match v with
    | .map entries => scanHeaderEntries entries none none
    | _ => none

/-! ## v1 streaming reader — `wire/v1/read.rs` -/

namespace V1

/-- Error type `CarReaderError` of the v1 reader.  The `InvalidHeader`
payload (a ciborium error value) is opaque to the reader and dropped. -/
inductive CarReaderError where
  | invalidFormat
  | invalidHeader
  | invalidVersion (n : Nat)
  | invalidSectionFormat (e : SectionFormatError)
  | preconditionNotMet
  | insufficientData (offset : Nat) (hint : Nat)
deriving DecidableEq, Repr

/-- State of the v1 `CarReader`: internal buffer, absolute stream offset
of the buffer's first byte, and the parsed header with its total size. -/
structure CarReader where
  data : List Nat
  start : Nat
  header : Option (CarHeader × Nat)
deriving DecidableEq, Repr

/-- Model of `CarReader::new`. -/
def CarReader.new : CarReader := ⟨[], 0, none⟩

/-- Model of `CarReader::has_header`. -/
def CarReader.has_header (r : CarReader) : Bool := r.header.isSome

/-- Model of `CarReader::receive_data`: append when `pos` continues the
buffer, otherwise treat the call as a seek and reset the buffer. -/
def CarReader.receive_data (r : CarReader) (buf : List Nat) (pos : Nat) : CarReader :=
  if pos = r.start + r.data.length then { r with data := r.data ++ buf }
  else { r with data := buf, start := pos }

/-- Model of `CarReader::read_header`.  Arithmetic is exact here; the
source computes `varint_size + header_len` on `usize`, which can only wrap
for a declared header length within ten bytes of `2 ^ 64`. -/
def CarReader.read_header (r : CarReader) : Except CarReaderError Unit × CarReader :=
  match r.header with
  | some _ => (.ok (), r)
  | none =>
    if r.start ≠ 0 then (.error (.insufficientData 0 8), r)
    else
      match UnsignedVarint.decode r.data with
      | some (varintLen, varintSize) =>
        let headerLen := varintLen
        let totalHeaderSize := varintSize + headerLen
        if r.data.length < totalHeaderSize then
          (.error (.insufficientData (r.start + r.data.length)
            (totalHeaderSize - r.data.length)), r)
        else
          match ciboriumDecodeCarHeader ((r.data.take totalHeaderSize).drop varintSize) with
          | none => (.error .invalidHeader, r)
          | some h =>
            (.ok (), ⟨r.data.drop totalHeaderSize, r.start + totalHeaderSize,
              some (h, totalHeaderSize)⟩)
      | none =>
        if r.data.length > 8 then (.error .invalidFormat, r)
        else (.error (.insufficientData (r.start + r.data.length) 8), r)

/-- Model of `CarReader::read_section`.  The location offset is computed
as in the source: `start` is advanced by the section size first and the
size subtracted back.  The outer `Option` propagates a parser panic. -/
def CarReader.read_section (r : CarReader) :
    Option (Except CarReaderError LocatableSection × CarReader) :=
  if ¬ r.has_header then some (.error .preconditionNotMet, r)
  else
    match Section.try_read_bytes r.data with
    | none => none
    | some (.ok (sec, size)) =>
      some (.ok ⟨sec, ⟨r.start + size - size, size⟩⟩,
        { r with data := r.data.drop size, start := r.start + size })
    | some (.error .insufficientData) =>
      some (.error (.insufficientData (r.start + r.data.length) 0), r)
    | some (.error e) => some (.error (.invalidSectionFormat e), r)

end V1

/-! ## v2 reader — `wire/v2/read.rs` -/

namespace V2

/-- The fixed 40-byte v2 header, all fields little-endian. -/
structure CarV2Header where
  characteristics : Nat
  data_offset : Nat
  data_size : Nat
  index_offset : Nat
deriving DecidableEq, Repr

/-- Little-endian value of a byte list. -/
def leNat : List Nat → Nat
  | [] => 0
  | b :: rest => b + 256 * leNat rest

/-- Model of `From<[u8; 40]> for CarV2Header`. -/
def CarV2Header.ofBytes (bs : List Nat) : CarV2Header :=
  ⟨leNat (bs.take 16), leNat ((bs.drop 16).take 8), leNat ((bs.drop 24).take 8),
    leNat ((bs.drop 32).take 8)⟩

/-- The 11-byte CAR v2 pragma (`CAR_V2_PRAGMA`). -/
def CAR_V2_PRAGMA : List Nat :=
  [0x0a, 0xa1, 0x67, 0x76, 0x65, 0x72, 0x73, 0x69, 0x6f, 0x6e, 0x02]

/-- Error type `CarReaderError` of the v2 reader. -/
inductive CarReaderError where
  | invalidFormat
  | invalidHeader
  | invalidVersion
  | invalidSectionFormat (e : SectionFormatError)
  | preconditionNotMet
  | insufficientData (offset : Nat) (hint : Nat)
  | endOfSections
deriving DecidableEq, Repr

/-- The three-state v2 reader (`NoHeader` / `HeaderV2` / `HeaderV1`); the
two header states carry the parsed v2 header and the inner v1 reader. -/
inductive CarReader where
  | noHeader (data : List Nat) (start : Nat)
  | headerV2 (header : CarV2Header) (v1_reader : V1.CarReader)
  | headerV1 (header : CarV2Header) (v1_reader : V1.CarReader)
deriving DecidableEq, Repr

/-- Model of `CarReader::new`. -/
def CarReader.new : CarReader := .noHeader [] 0

/-- Error translation applied by the v2 reader around inner v1 calls
(`read_header`, `find_section`, `seek_first_section`): insufficiencies are
shifted by `data_offset`; a v1 `InvalidVersion` becomes `InvalidFormat`. -/
def mapV1Error (dataOffset : Nat) : V1.CarReaderError → CarReaderError
  | .invalidFormat => .invalidFormat
  | .invalidVersion _ => .invalidFormat
  | .invalidHeader => .invalidHeader
  | .invalidSectionFormat e => .invalidSectionFormat e
  | .preconditionNotMet => .preconditionNotMet
  | .insufficientData offset hint => .insufficientData (dataOffset + offset) hint

/-- Error translation applied by `read_section`: an inner insufficiency
whose offset falls at or beyond `data_size` becomes `EndOfSections`. -/
def mapV1SectionError (header : CarV2Header) : V1.CarReaderError → CarReaderError
  | .invalidFormat => .invalidFormat
  | .invalidVersion _ => .invalidFormat
  | .invalidHeader => .invalidHeader
  | .invalidSectionFormat e => .invalidSectionFormat e
  | .preconditionNotMet => .preconditionNotMet
  | .insufficientData offset hint =>
    if offset < header.data_size then .insufficientData (header.data_offset + offset) hint
    else .endOfSections

/-- The `HeaderV2`/`HeaderV1` branch of `CarReader::receive_data`: bytes
at `pos` outside `[data_offset, data_offset + data_size)` are ignored;
otherwise `pos` is rebased and the buffer clamped to
`min(buf.len(), v1_data_end - pos)` — with `pos` already rebased, exactly
as in the source. -/
def receiveWindow (header : CarV2Header) (inner : V1.CarReader) (buf : List Nat)
    (pos : Nat) : V1.CarReader :=
  let v1DataStart := header.data_offset
  let v1DataEnd := v1DataStart + header.data_size
  if pos < v1DataStart ∨ pos ≥ v1DataEnd then inner
  else
    let pos2 := pos - v1DataStart
    let len := min buf.length (v1DataEnd - pos2)
    inner.receive_data (buf.take len) pos2

/-- Model of the v2 `CarReader::receive_data`. -/
def CarReader.receive_data : CarReader → List Nat → Nat → CarReader
  | .noHeader data start, buf, pos =>
    if pos ≠ start + data.length then .noHeader data start
    else .noHeader (data ++ buf) start
  | .headerV2 header inner, buf, pos => .headerV2 header (receiveWindow header inner buf pos)
  | .headerV1 header inner, buf, pos => .headerV1 header (receiveWindow header inner buf pos)

/-- Model of the v2 `CarReader::read_header`: in `NoHeader`, require 51
bytes and the pragma, decode the fixed header, feed the buffered window
bytes (clamped to the window) to a fresh v1 reader, and try to parse the
v1 header; in `HeaderV2`, retry the v1 header. -/
def CarReader.read_header : CarReader → Except CarReaderError Unit × CarReader
  | .noHeader data start =>
    if data.length < 51 then
      (.error (.insufficientData data.length (51 - data.length)), .noHeader data start)
    else if data.take 11 ≠ CAR_V2_PRAGMA then (.error .invalidVersion, .noHeader data start)
    else
      let header := CarV2Header.ofBytes ((data.take 51).drop 11)
      let v1r :=
        if data.length > header.data_offset then
          let v1DataEnd := min (header.data_offset + header.data_size) data.length
          V1.CarReader.new.receive_data ((data.take v1DataEnd).drop header.data_offset) 0
        else V1.CarReader.new
      match v1r.read_header with
      | (.ok _, v1r2) => (.ok (), .headerV1 header v1r2)
      | (.error e, v1r2) => (.error (mapV1Error header.data_offset e), .headerV2 header v1r2)
  | .headerV2 header inner =>
    match inner.read_header with
    | (.ok _, inner2) => (.ok (), .headerV1 header inner2)
    | (.error e, inner2) => (.error (mapV1Error header.data_offset e), .headerV2 header inner2)
  | .headerV1 header inner => (.ok (), .headerV1 header inner)

/-- Model of the v2 `CarReader::read_section`: delegate to the inner v1
reader, add `data_offset` to the returned location, and translate
errors through `mapV1SectionError`. -/
def CarReader.read_section : CarReader → Option (Except CarReaderError LocatableSection × CarReader)
  | .headerV1 header inner =>
    match inner.read_section with
    | none => none
    | some (.ok ls, inner2) =>
      some (.ok ⟨ls.sect, ⟨header.data_offset + ls.location.offset, ls.location.length⟩⟩,
        .headerV1 header inner2)
    | some (.error e, inner2) => some (.error (mapV1SectionError header e), .headerV1 header inner2)
  | st => some (.error .preconditionNotMet, st)

end V2

/-! ## Unified reader — `read.rs` -/

namespace Unified

/-- The detected CAR format. -/
inductive CarFormat where
  | v1
  | v2
deriving DecidableEq, Repr

/-- Error type `CarReaderError` of the unified reader. -/
inductive CarReaderError where
  | invalidFormat
  | invalidHeader
  | invalidVersion
  | invalidSectionFormat (e : SectionFormatError)
  | preconditionNotMet
  | insufficientData (offset : Nat) (hint : Nat)
  | endOfSections
deriving DecidableEq, Repr

/-- The unified reader state (`Unclear` / `V1` / `V2`). -/
inductive CarReader where
  | unclear (buffer : List Nat)
  | v1 (reader : V1.CarReader)
  | v2 (reader : V2.CarReader)
deriving DecidableEq, Repr

/-- Model of `From<CarReaderV1Error>` for the unified error. -/
def fromV1Error : V1.CarReaderError → CarReaderError
  | .invalidFormat => .invalidFormat
  | .invalidVersion _ => .invalidVersion
  | .invalidHeader => .invalidHeader
  | .invalidSectionFormat e => .invalidSectionFormat e
  | .preconditionNotMet => .preconditionNotMet
  | .insufficientData o h => .insufficientData o h

/-- Model of `From<CarReaderV2Error>` for the unified error. -/
def fromV2Error : V2.CarReaderError → CarReaderError
  | .invalidFormat => .invalidFormat
  | .invalidVersion => .invalidVersion
  | .invalidHeader => .invalidHeader
  | .invalidSectionFormat e => .invalidSectionFormat e
  | .preconditionNotMet => .preconditionNotMet
  | .insufficientData o h => .insufficientData o h
  | .endOfSections => .endOfSections

/-- Model of `CarReader::determine_format`: at 11 accumulated bytes,
compare the prefix with the v2 pragma. -/
def determine_format (bytes : List Nat) : Option CarFormat :=
  if bytes.length ≥ V2.CAR_V2_PRAGMA.length then
    if V2.CAR_V2_PRAGMA.isPrefixOf bytes then some .v2 else some .v1
  else none

/-- Model of `CarReader::new`. -/
def CarReader.new : CarReader := .unclear []

/-- Model of the unified `CarReader::receive_data`: while `Unclear`,
bytes must continue the accumulated buffer (others are dropped); once the
format is determined the whole buffer is handed to a fresh inner reader
at offset 0; afterwards everything is delegated. -/
def CarReader.receive_data : CarReader → List Nat → Nat → CarReader
  | .unclear buffer, buf, pos =>
    if pos ≠ buffer.length then .unclear buffer
    else
      let buffer2 := buffer ++ buf
      match determine_format buffer2 with
      | some .v1 => .v1 (V1.CarReader.new.receive_data buffer2 0)
      | some .v2 => .v2 (V2.CarReader.new.receive_data buffer2 0)
      | none => .unclear buffer2
  | .v1 r, buf, pos => .v1 (r.receive_data buf pos)
  | .v2 r, buf, pos => .v2 (r.receive_data buf pos)

/-- Model of the unified `CarReader::read_header`. -/
def CarReader.read_header : CarReader → Except CarReaderError Unit × CarReader
  | .unclear buffer => (.error (.insufficientData 0 12), .unclear buffer)
  | .v1 r =>
    match r.read_header with
    | (res, r2) => (res.mapError fromV1Error, .v1 r2)
  | .v2 r =>
    match r.read_header with
    | (res, r2) => (res.mapError fromV2Error, .v2 r2)

/-- Model of the unified `CarReader::read_section`. -/
def CarReader.read_section : CarReader → Option (Except CarReaderError LocatableSection × CarReader)
  | .unclear buffer => some (.error .preconditionNotMet, .unclear buffer)
  | .v1 r =>
    match r.read_section with
    | none => none
    | some (res, r2) => some (res.mapError fromV1Error, .v1 r2)
  | .v2 r =>
    match r.read_section with
    | none => none
    | some (res, r2) => some (res.mapError fromV2Error, .v2 r2)

end Unified

/-! ## Drive loop

A pure model of the documented reader-caller protocol: parse the header,
then read sections, looping on `InsufficientData` by supplying the next
chunk.  `fuel` bounds the number of reader calls per pump. -/

/-- Pump the reader until an error: first `read_header` (once it
succeeds, the flag flips), then `read_section` repeatedly, collecting
sections.  Any error, or a modelled panic, stops the pump. -/
def drivePump : Nat → Unified.CarReader → Bool → List LocatableSection →
    Unified.CarReader × Bool × List LocatableSection
  | 0, st, hd, acc => (st, hd, acc)
  | fuel + 1, st, hd, acc =>
    if hd then
      match st.read_section with
      | none => (st, hd, acc)
      | some (.ok ls, st2) => drivePump fuel st2 true (acc ++ [ls])
      | some (.error _, st2) => (st2, true, acc)
    else
      match st.read_header with
      | (.ok _, st2) => drivePump fuel st2 true acc
      | (.error _, st2) => (st2, false, acc)

/-- Feed the chunks in order, pumping the reader after each chunk and
once more at the end; returns the collected sections. -/
def driveChunks : Nat → Unified.CarReader → Bool → List LocatableSection →
    List (List Nat × Nat) → List LocatableSection
  | fuel, st, hd, acc, [] => (drivePump fuel st hd acc).2.2
  | fuel, st, hd, acc, (buf, pos) :: rest =>
    match drivePump fuel (st.receive_data buf pos) hd acc with
    | (st2, hd2, acc2) => driveChunks fuel st2 hd2 acc2 rest

/-! ## A concrete CAR v2 stream

A complete CAR v2 stream: pragma, v2 header
(`data_offset = 51`, `data_size = 54`, `index_offset = 105`), an embedded
v1 payload (17-byte CBOR header `\x7broots: [], version: 1\x7d` with its
length prefix, then one 36-byte section), and a 36-byte trailing index
region, which the read path treats as opaque bytes. -/

/-- The embedded v1 header bytes: varint length 17, then the CBOR map. -/
def demoV1Header : List Nat :=
  [0x11, 0xA2, 0x65, 0x72, 0x6F, 0x6F, 0x74, 0x73, 0x80,
    0x67, 0x76, 0x65, 0x72, 0x73, 0x69, 0x6F, 0x6E, 0x01]

/-- The payload section: length 35, CIDv0, one block byte. -/
def demoSection : List Nat :=
  0x23 :: 0x12 :: 0x20 :: (List.replicate 32 0xAA ++ [0x42])

/-- The trailing index-region bytes (opaque to the read path). -/
def demoIndexRegion : List Nat :=
  0x23 :: 0x12 :: 0x20 :: (List.replicate 32 0xBB ++ [0x43])

/-- The complete 141-byte CAR v2 stream. -/
def demoStream : List Nat :=
  V2.CAR_V2_PRAGMA ++
    (List.replicate 16 0 ++ [51, 0, 0, 0, 0, 0, 0, 0] ++ [54, 0, 0, 0, 0, 0, 0, 0] ++
      [105, 0, 0, 0, 0, 0, 0, 0]) ++
    demoV1Header ++ demoSection ++ demoIndexRegion

/-- Sections decoded when the whole stream is delivered in one call. -/
def demoOneShot : List LocatableSection :=
  driveChunks 20 Unified.CarReader.new false [] [(demoStream, 0)]

/-- Sections decoded when the stream is delivered as the two in-order
chunks `[0, 51)` and `[51, 141)`, at their correct absolute positions. -/
def demoChunked : List LocatableSection :=
  driveChunks 20 Unified.CarReader.new false []
    [(demoStream.take 51, 0), (demoStream.drop 51, 51)]

/-! ## Parsing lemmas

Stability and characterisation lemmas about the codec definitions
above, used to settle the claims. -/

/-! ### Varint lemmas -/

/-- Bytes below 128 have the continuation bit clear. -/
lemma and128_eq_zero_of_lt {b : Nat} (h : b < 128) : b &&& 128 = 0 := by
  apply Nat.eq_of_testBit_eq
  intro i
  simp only [Nat.testBit_and, Nat.zero_testBit, Bool.and_eq_false_iff]
  by_cases hi : i = 7
  · subst hi; left; exact Nat.testBit_lt_two_pow h
  · right
    rw [show (128 : Nat) = 2 ^ 7 by norm_num]
    exact Nat.testBit_two_pow_of_ne (by omega)

/-- Bytes in `[128, 256)` have the continuation bit set. -/
lemma and128_ne_zero_of_ge {b : Nat} (h1 : 128 ≤ b) (h2 : b < 256) : b &&& 128 ≠ 0 := by
  have h7 : b.testBit 7 = true := by
    rw [Nat.testBit_to_div_mod]
    have : b / 128 = 1 := by omega
    simp [this]
  intro hc
  have := congrArg (fun x => x.testBit 7) hc
  simp only [Nat.testBit_and, h7, Bool.true_and, Nat.zero_testBit] at this
  rw [show (128 : Nat) = 2 ^ 7 by norm_num] at this
  rw [Nat.testBit_two_pow_self] at this
  simp at this

/-- Bitwise or of values occupying disjoint bit ranges is addition. -/
lemma lor_shiftLeft_eq_add {a : Nat} (v s : Nat) (h : a < 2 ^ s) :
    a ||| v <<< s = a + v * 2 ^ s := by
  rw [Nat.shiftLeft_eq, Nat.lor_comm, mul_comm, ← Nat.mul_add_lt_is_or h]
  ring

/-- One unfolding step of `encodeAux` at positive fuel. -/
lemma UnsignedVarint.encodeAux_succ (fuel v : Nat) :
    UnsignedVarint.encodeAux (fuel + 1) v =
      if v / 128 = 0 then [v % 128]
      else (v % 128 + 128) :: UnsignedVarint.encodeAux fuel (v / 128) := rfl

/-- Decoding a single terminal LEB128 byte adds its seven data bits above
the accumulator. -/
lemma UnsignedVarint.decodeAux_last {v : Nat} (hvlt : v < 128) (rest : List Nat)
    (i shift acc : Nat) (hacc : acc < 2 ^ shift)
    (hfit : acc + v * 2 ^ shift < 2 ^ 64) :
    UnsignedVarint.decodeAux (v :: rest) i shift acc =
      some (acc + v * 2 ^ shift, i + 1) := by
  simp only [UnsignedVarint.decodeAux]
  rw [Nat.mod_eq_of_lt hvlt, lor_shiftLeft_eq_add v shift hacc, Nat.mod_eq_of_lt hfit,
    and128_eq_zero_of_lt hvlt]
  simp

/-- Decoding an unsigned LEB128 encoding produced by `encodeAux`, starting
from an arbitrary accumulator state, recovers the encoded value.  The
accumulator occupies the bits below `shift` and the total stays below
`2 ^ 64`. -/
lemma UnsignedVarint.decodeAux_encodeAux (fuel : Nat) :
    ∀ v : Nat, v < 128 ^ (fuel + 1) →
    ∀ (rest : List Nat) (i shift acc : Nat), acc < 2 ^ shift →
      acc + v * 2 ^ shift < 2 ^ 64 →
      UnsignedVarint.decodeAux (UnsignedVarint.encodeAux (fuel + 1) v ++ rest) i shift acc =
        some (acc + v * 2 ^ shift, i + (UnsignedVarint.encodeAux (fuel + 1) v).length) := by
  induction fuel with
  | zero =>
    intro v hv rest i shift acc hacc hfit
    have hvlt : v < 128 := by simpa using hv
    have hv2 : v / 128 = 0 := Nat.div_eq_of_lt hvlt
    rw [UnsignedVarint.encodeAux_succ, if_pos hv2]
    simp only [List.cons_append, List.nil_append, List.length_cons, List.length_nil]
    rw [UnsignedVarint.decodeAux_last (by omega : v % 128 < 128) rest i shift acc hacc
      (by rw [Nat.mod_eq_of_lt hvlt]; exact hfit)]
    rw [Nat.mod_eq_of_lt hvlt]
  | succ fuel ih =>
    intro v hv rest i shift acc hacc hfit
    by_cases hv2 : v / 128 = 0
    · have hvlt : v < 128 := by
        rcases Nat.lt_or_ge v 128 with h | h
        · exact h
        · exfalso
          have h1 : 128 / 128 ≤ v / 128 := Nat.div_le_div_right h
          simp at h1
          omega
      rw [UnsignedVarint.encodeAux_succ, if_pos hv2]
      simp only [List.cons_append, List.nil_append, List.length_cons, List.length_nil]
      rw [UnsignedVarint.decodeAux_last (by omega : v % 128 < 128) rest i shift acc hacc
        (by rw [Nat.mod_eq_of_lt hvlt]; exact hfit)]
      rw [Nat.mod_eq_of_lt hvlt]
    · have hge : 128 ≤ v := by
        rcases Nat.lt_or_ge v 128 with h | h
        · exact absurd (Nat.div_eq_of_lt h) hv2
        · exact h
      rw [UnsignedVarint.encodeAux_succ, if_neg hv2]
      simp only [List.cons_append, List.length_cons]
      simp only [UnsignedVarint.decodeAux]
      have hb : v % 128 < 128 := Nat.mod_lt _ (by norm_num)
      have hbmod : (v % 128 + 128) % 128 = v % 128 := by omega
      rw [hbmod]
      have hle : v % 128 * 2 ^ shift ≤ v * 2 ^ shift :=
        Nat.mul_le_mul_right _ (Nat.mod_le _ _)
      have hfit2 : acc + v % 128 * 2 ^ shift < 2 ^ 64 := by omega
      rw [lor_shiftLeft_eq_add (v % 128) shift hacc]
      rw [Nat.mod_eq_of_lt hfit2]
      have hcont := and128_ne_zero_of_ge (b := v % 128 + 128) (by omega) (by omega)
      rw [if_neg hcont]
      have hpow : (2 : Nat) ^ (shift + 7) = 128 * 2 ^ shift := by
        rw [pow_add, Nat.mul_comm]; norm_num
      have hshift : ¬ shift + 7 ≥ 64 := by
        intro habs
        have h1 : 2 ^ 64 ≤ 2 ^ (shift + 7) := Nat.pow_le_pow_right (by norm_num) habs
        have h3 : 128 * 2 ^ shift ≤ v * 2 ^ shift :=
          Nat.mul_le_mul_right _ hge
        omega
      rw [if_neg hshift]
      have hvrec : v / 128 < 128 ^ (fuel + 1) := by
        rw [Nat.div_lt_iff_lt_mul (by norm_num)]
        calc v < 128 ^ (fuel + 1 + 1) := hv
        _ = 128 ^ (fuel + 1) * 128 := by rw [pow_succ]
      have hacc2 : acc + v % 128 * 2 ^ shift < 2 ^ (shift + 7) := by
        rw [hpow]
        nlinarith [Nat.mod_lt v (show 0 < 128 by norm_num), hacc]
      have hsum : acc + v % 128 * 2 ^ shift + v / 128 * 2 ^ (shift + 7) =
          acc + v * 2 ^ shift := by
        rw [hpow]
        have : v % 128 * 2 ^ shift + v / 128 * (128 * 2 ^ shift) =
            (v % 128 + 128 * (v / 128)) * 2 ^ shift := by ring
        rw [add_assoc, this, Nat.mod_add_div v 128]
      have hrec := ih (v / 128) hvrec rest (i + 1) (shift + 7)
        (acc + v % 128 * 2 ^ shift) hacc2 (by rw [hsum]; exact hfit)
      rw [hrec, hsum]
      have hlen : i + 1 + (UnsignedVarint.encodeAux (fuel + 1) (v / 128)).length =
          i + ((UnsignedVarint.encodeAux (fuel + 1) (v / 128)).length + 1) := by omega
      rw [hlen]

/-- Round-trip for the unsigned varint codec, with an arbitrary tail:
decoding consumes exactly the encoding and returns the encoded value. -/
lemma UnsignedVarint.decode_encode_append (v : Nat) (h : v < 2 ^ 64) (rest : List Nat) :
    UnsignedVarint.decode (UnsignedVarint.encode v ++ rest) =
      some (v, (UnsignedVarint.encode v).length) := by
  have hb : v < 128 ^ (9 + 1) := by
    calc v < 2 ^ 64 := h
    _ ≤ 128 ^ 10 := by norm_num
  have := UnsignedVarint.decodeAux_encodeAux 9 v hb rest 0 0 0 (by norm_num) (by simpa using h)
  simpa [UnsignedVarint.decode, UnsignedVarint.encode] using this

/-- Round-trip for the unsigned varint codec. -/
lemma UnsignedVarint.decode_encode (v : Nat) (h : v < 2 ^ 64) :
    UnsignedVarint.decode (UnsignedVarint.encode v) =
      some (v, (UnsignedVarint.encode v).length) := by
  have := UnsignedVarint.decode_encode_append v h []
  simpa using this

/-- A successful unsigned varint decode consumes at least one and at most
`l.length` bytes (byte counts are relative to the running index `i`). -/
lemma UnsignedVarint.decodeAux_bounds (l : List Nat) :
    ∀ (i s a v k : Nat), UnsignedVarint.decodeAux l i s a = some (v, k) →
      i < k ∧ k ≤ i + l.length := by
  induction l with
  | nil => intro i s a v k h; simp [UnsignedVarint.decodeAux] at h
  | cons b rest ih =>
    intro i s a v k h
    simp only [UnsignedVarint.decodeAux] at h
    by_cases h1 : b &&& 128 = 0
    · rw [if_pos h1] at h
      simp only [Option.some.injEq, Prod.mk.injEq] at h
      simp only [List.length_cons]
      omega
    · rw [if_neg h1] at h
      by_cases h2 : s + 7 ≥ 64
      · rw [if_pos h2] at h; exact absurd h (by simp)
      · rw [if_neg h2] at h
        have := ih (i + 1) (s + 7) _ v k h
        simp only [List.length_cons]
        omega

/-- Appending bytes after a successful unsigned varint decode does not
change its result. -/
lemma UnsignedVarint.decodeAux_append (l : List Nat) :
    ∀ (t : List Nat) (i s a : Nat) (r : Nat × Nat),
      UnsignedVarint.decodeAux l i s a = some r →
      UnsignedVarint.decodeAux (l ++ t) i s a = some r := by
  induction l with
  | nil => intro t i s a r h; simp [UnsignedVarint.decodeAux] at h
  | cons b rest ih =>
    intro t i s a r h
    simp only [UnsignedVarint.decodeAux] at h ⊢
    by_cases h1 : b &&& 128 = 0
    · rwa [if_pos h1] at h ⊢
    · rw [if_neg h1] at h ⊢
      by_cases h2 : s + 7 ≥ 64
      · rwa [if_pos h2] at h ⊢
      · rw [if_neg h2] at h ⊢
        exact ih t _ _ _ _ h

/-- Truncating the input after the bytes consumed by a successful unsigned
varint decode does not change its result. -/
lemma UnsignedVarint.decodeAux_take (l : List Nat) :
    ∀ (m i s a v k : Nat), UnsignedVarint.decodeAux l i s a = some (v, k) →
      k - i ≤ m →
      UnsignedVarint.decodeAux (l.take m) i s a = some (v, k) := by
  induction l with
  | nil => intro m i s a v k h; simp [UnsignedVarint.decodeAux] at h
  | cons b rest ih =>
    intro m i s a v k h hm
    have hb := UnsignedVarint.decodeAux_bounds _ _ _ _ _ _ h
    have hm1 : 1 ≤ m := by omega
    obtain ⟨m', rfl⟩ : ∃ m', m = m' + 1 := ⟨m - 1, by omega⟩
    rw [List.take_succ_cons]
    simp only [UnsignedVarint.decodeAux] at h ⊢
    by_cases h1 : b &&& 128 = 0
    · rwa [if_pos h1] at h ⊢
    · rw [if_neg h1] at h ⊢
      by_cases h2 : s + 7 ≥ 64
      · rwa [if_pos h2] at h ⊢
      · rw [if_neg h2] at h ⊢
        have hbr := UnsignedVarint.decodeAux_bounds _ _ _ _ _ _ h
        exact ih m' _ _ _ _ _ h (by omega)

/-- Ten consecutive continuation bytes exhaust the 64-bit shift budget:
the unsigned decoder rejects the input. -/
lemma UnsignedVarint.decodeAux_none_of_cont (pre : List Nat) :
    ∀ (rest : List Nat) (i s a : Nat), s < 64 → 64 ≤ s + 7 * pre.length →
      (∀ b ∈ pre, b &&& 128 ≠ 0) →
      UnsignedVarint.decodeAux (pre ++ rest) i s a = none := by
  induction pre with
  | nil => intro rest i s a hs hlen _; simp at hlen; omega
  | cons b pre ih =>
    intro rest i s a hs hlen hcont
    simp only [List.cons_append, UnsignedVarint.decodeAux]
    rw [if_neg (hcont b (List.mem_cons_self b pre))]
    by_cases h2 : s + 7 ≥ 64
    · rw [if_pos h2]
    · rw [if_neg h2]
      refine ih rest (i + 1) (s + 7) _ (by omega) ?_ ?_
      · simp only [List.length_cons] at hlen; omega
      · intro x hx; exact hcont x (List.mem_cons_of_mem _ hx)

/-- The same bound for the signed decoder. -/
lemma SignedVarint.signed_decodeAux_none_of_cont (pre : List Nat) :
    ∀ (rest : List Nat) (i s a : Nat), s < 64 → 64 ≤ s + 7 * pre.length →
      (∀ b ∈ pre, b &&& 128 ≠ 0) →
      SignedVarint.decodeAux (pre ++ rest) i s a = none := by
  induction pre with
  | nil => intro rest i s a hs hlen _; simp at hlen; omega
  | cons b pre ih =>
    intro rest i s a hs hlen hcont
    simp only [List.cons_append, SignedVarint.decodeAux]
    rw [if_neg (hcont b (List.mem_cons_self b pre))]
    by_cases h2 : s + 7 ≥ 64
    · rw [if_pos h2]
    · rw [if_neg h2]
      refine ih rest (i + 1) (s + 7) _ (by omega) ?_ ?_
      · simp only [List.length_cons] at hlen; omega
      · intro x hx; exact hcont x (List.mem_cons_of_mem _ hx)

/-- A successful decode consumes between 1 and `l.length` bytes. -/
lemma UnsignedVarint.decode_bounds {l : List Nat} {v k : Nat}
    (h : UnsignedVarint.decode l = some (v, k)) : 0 < k ∧ k ≤ l.length := by
  have := UnsignedVarint.decodeAux_bounds l 0 0 0 v k h
  omega

/-- Appending bytes after a successful decode does not change its result. -/
lemma UnsignedVarint.decode_append {l : List Nat} {r : Nat × Nat} (t : List Nat)
    (h : UnsignedVarint.decode l = some r) :
    UnsignedVarint.decode (l ++ t) = some r :=
  UnsignedVarint.decodeAux_append l t 0 0 0 r h

/-- Truncating the input after the consumed bytes does not change a
successful decode. -/
lemma UnsignedVarint.decode_take {l : List Nat} {v k : Nat} (m : Nat)
    (h : UnsignedVarint.decode l = some (v, k)) (hm : k ≤ m) :
    UnsignedVarint.decode (l.take m) = some (v, k) :=
  UnsignedVarint.decodeAux_take l m 0 0 0 v k h (by omega)

/-- Any input whose first ten bytes all carry the continuation bit is
rejected by both varint decoders. -/
lemma varint_decode_none_of_ten_cont {l : List Nat} (h : 10 ≤ l.length)
    (hc : ∀ b ∈ l.take 10, b &&& 128 ≠ 0) :
    UnsignedVarint.decode l = none ∧ SignedVarint.decode l = none := by
  have hsplit : l = l.take 10 ++ l.drop 10 := (List.take_append_drop _ _).symm
  have hlen : (l.take 10).length = 10 := by
    rw [List.length_take]; omega
  constructor
  · rw [UnsignedVarint.decode, hsplit]
    exact UnsignedVarint.decodeAux_none_of_cont _ _ 0 0 0 (by norm_num)
      (by rw [hlen]; norm_num) hc
  · rw [SignedVarint.decode, hsplit]
    exact SignedVarint.signed_decodeAux_none_of_cont _ _ 0 0 0 (by norm_num)
      (by rw [hlen]; norm_num) hc

example : UnsignedVarint.encode 624485 = [0xE5, 0x8E, 0x26] := by decide

example : UnsignedVarint.decode [0xE5, 0x8E, 0x26] = some (624485, 3) := by decide

example : SignedVarint.encode (-123456) = [0xC0, 0xBB, 0x78] := by decide

example : SignedVarint.decode [0xC0, 0xBB, 0x78] = some (-123456, 3) := by decide

/-- The CIDv0 success branch of `try_read_bytes`. -/
lemma RawCid.read_v0 {b : List Nat} (h2 : ¬ b.length < 2)
    (hp : [0x12, 0x20].isPrefixOf b) (h34 : ¬ b.length < 34) :
    RawCid.try_read_bytes b = .ok (⟨b.take 34⟩, 34) := by
  unfold RawCid.try_read_bytes
  rw [if_neg h2, if_pos hp, if_neg h34]

/-- The CIDv1 success branch of `try_read_bytes`. -/
lemma RawCid.read_v1 {b : List Nat} {mc ms hc hs ml ls : Nat} (h2 : ¬ b.length < 2)
    (hp : ¬ [0x12, 0x20].isPrefixOf b) (h1 : b.headI = 0x01)
    (d1 : UnsignedVarint.decode (b.drop 1) = some (mc, ms))
    (d2 : UnsignedVarint.decode (b.drop (1 + ms)) = some (hc, hs))
    (d3 : UnsignedVarint.decode (b.drop (1 + ms + hs)) = some (ml, ls))
    (hlen : ¬ b.length < 1 + ms + hs + ls + ml) :
    RawCid.try_read_bytes b = .ok (⟨b.take (1 + ms + hs + ls + ml)⟩, 1 + ms + hs + ls + ml) := by
  unfold RawCid.try_read_bytes
  rw [if_neg h2, if_neg hp, if_pos h1, d1]
  simp only
  rw [d2]
  simp only
  rw [d3]
  simp only
  rw [if_neg hlen]

/-- Characterisation of the success cases of `RawCid.try_read_bytes`. -/
lemma RawCid.read_ok_cases {b : List Nat} {c : RawCid} {n : Nat}
    (h : RawCid.try_read_bytes b = .ok (c, n)) :
    (¬ b.length < 2 ∧ [0x12, 0x20].isPrefixOf b ∧ ¬ b.length < 34 ∧
      c = ⟨b.take 34⟩ ∧ n = 34)
    ∨ (¬ b.length < 2 ∧ ¬ [0x12, 0x20].isPrefixOf b ∧ b.headI = 0x01 ∧
      ∃ mc ms hc hs ml ls, UnsignedVarint.decode (b.drop 1) = some (mc, ms) ∧
        UnsignedVarint.decode (b.drop (1 + ms)) = some (hc, hs) ∧
        UnsignedVarint.decode (b.drop (1 + ms + hs)) = some (ml, ls) ∧
        n = 1 + ms + hs + ls + ml ∧ ¬ b.length < n ∧ c = ⟨b.take n⟩) := by
  unfold RawCid.try_read_bytes at h
  by_cases hl : b.length < 2
  · rw [if_pos hl] at h; exact absurd h (by simp)
  rw [if_neg hl] at h
  by_cases hp : [0x12, 0x20].isPrefixOf b
  · rw [if_pos hp] at h
    by_cases h34 : b.length < 34
    · rw [if_pos h34] at h; exact absurd h (by simp)
    · rw [if_neg h34] at h
      simp only [Except.ok.injEq, Prod.mk.injEq] at h
      exact Or.inl ⟨hl, hp, h34, h.1.symm, h.2.symm⟩
  · rw [if_neg hp] at h
    by_cases h1 : b.headI = 0x01
    · rw [if_pos h1] at h
      match hd1 : UnsignedVarint.decode (b.drop 1) with
      | none => rw [hd1] at h; exact absurd h (by simp)
      | some (mc, ms) =>
        rw [hd1] at h
        simp only at h
        match hd2 : UnsignedVarint.decode (b.drop (1 + ms)) with
        | none => rw [hd2] at h; exact absurd h (by simp)
        | some (hc, hs) =>
          rw [hd2] at h
          simp only at h
          match hd3 : UnsignedVarint.decode (b.drop (1 + ms + hs)) with
          | none => rw [hd3] at h; exact absurd h (by simp)
          | some (ml, ls) =>
            rw [hd3] at h
            simp only at h
            by_cases hlen : b.length < 1 + ms + hs + ls + ml
            · rw [if_pos hlen] at h; exact absurd h (by simp)
            · rw [if_neg hlen] at h
              simp only [Except.ok.injEq, Prod.mk.injEq] at h
              refine Or.inr ⟨hl, hp, h1, mc, ms, hc, hs, ml, ls, ?_, ?_, ?_,
                h.2.symm, ?_, ?_⟩
              · first | exact hd1 | rfl
              · exact hd2
              · exact hd3
              · rw [h.2] at hlen; exact hlen
              · rw [← h.1, h.2]
    · rw [if_neg h1] at h; exact absurd h (by simp)

/-- The `isPrefixOf` test for a two-byte pattern names the two leading
bytes. -/
lemma isPrefixOf_pair_iff (p q : Nat) (l : List Nat) :
    [p, q].isPrefixOf l = true ↔ ∃ tl, l = p :: q :: tl := by
  match l with
  | [] => simp [List.isPrefixOf]
  | [x] => simp [List.isPrefixOf]
  | x :: y :: tl =>
    constructor
    · intro h
      have h1 : p = x ∧ q = y := by
        simpa [List.isPrefixOf] using h
      exact ⟨tl, by rw [h1.1, h1.2]⟩
    · rintro ⟨tl2, h⟩
      simp only [List.cons.injEq] at h
      simp [List.isPrefixOf, h.1, h.2.1]

/-- Taking no further than the left part of an append. -/
lemma take_append_left_of_le {α : Type} (b t : List α) (n : Nat) (h : n ≤ b.length) :
    (b ++ t).take n = b.take n := by
  rw [List.take_append_eq_append_take, Nat.sub_eq_zero_of_le h]
  simp

/-- Dropping no further than the left part of an append. -/
lemma drop_append_left_of_le {α : Type} (b t : List α) (n : Nat) (h : n ≤ b.length) :
    (b ++ t).drop n = b.drop n ++ t := by
  rw [List.drop_append_eq_append_drop, Nat.sub_eq_zero_of_le h]
  simp

/-- Shape of a successful CID parse: the parser returns exactly the
consumed prefix. -/
lemma RawCid.read_shape {b : List Nat} {c : RawCid} {n : Nat}
    (h : RawCid.try_read_bytes b = .ok (c, n)) :
    c.bytes = b.take n ∧ n ≤ b.length ∧ 2 ≤ b.length ∧ 1 ≤ n := by
  rcases RawCid.read_ok_cases h with ⟨hl, _, h34, hc, hn⟩ |
    ⟨hl, _, _, mc, ms, hc2, hs, ml, ls, d1, d2, d3, hn, hlen, hc⟩
  · subst hn; subst hc; exact ⟨rfl, by omega, by omega, by omega⟩
  · subst hc; exact ⟨rfl, by omega, by omega, by omega⟩

/-- Bytes appended after a successfully parsed CID do not change the
parse. -/
lemma RawCid.read_append {b t : List Nat} {c : RawCid} {n : Nat}
    (h : RawCid.try_read_bytes b = .ok (c, n)) :
    RawCid.try_read_bytes (b ++ t) = .ok (c, n) := by
  rcases RawCid.read_ok_cases h with ⟨hl, hp, h34, hc, hn⟩ |
    ⟨hl, hp, h1, mc, ms, hc2, hs, ml, ls, d1, d2, d3, hn, hlen, hc⟩
  · subst hn; subst hc
    obtain ⟨tl, hb⟩ := (isPrefixOf_pair_iff _ _ _).mp hp
    have h2 : ¬ (b ++ t).length < 2 := by simp only [List.length_append]; omega
    have hp2 : [0x12, 0x20].isPrefixOf (b ++ t) = true := by
      rw [isPrefixOf_pair_iff]
      exact ⟨tl ++ t, by rw [hb]; simp⟩
    have h34b : ¬ (b ++ t).length < 34 := by simp only [List.length_append]; omega
    rw [RawCid.read_v0 h2 hp2 h34b, take_append_left_of_le _ _ _ (by omega)]
  · subst hn; subst hc
    have hms := UnsignedVarint.decode_bounds d1
    have hhs := UnsignedVarint.decode_bounds d2
    have hls := UnsignedVarint.decode_bounds d3
    simp only [List.length_drop] at hms hhs hls
    have h2 : ¬ (b ++ t).length < 2 := by simp only [List.length_append]; omega
    obtain ⟨x, b2, hb⟩ : ∃ x b2, b = x :: b2 := by
      cases b with
      | nil => simp at hl
      | cons x b2 => exact ⟨x, b2, rfl⟩
    have hp2 : ¬ [0x12, 0x20].isPrefixOf (b ++ t) = true := by
      rw [isPrefixOf_pair_iff]
      rintro ⟨tl, htl⟩
      apply hp
      rw [isPrefixOf_pair_iff]
      rw [hb] at htl ⊢
      cases b2 with
      | nil =>
        rw [hb] at hl
        simp only [List.length_cons, List.length_nil] at hl
        omega
      | cons y tl2 =>
        simp only [List.cons_append, List.cons.injEq] at htl
        exact ⟨tl2, by rw [htl.1, htl.2.1]⟩
    have h1b : (b ++ t).headI = 0x01 := by
      rw [hb] at h1 ⊢
      exact h1
    have d1b : UnsignedVarint.decode ((b ++ t).drop 1) = some (mc, ms) := by
      rw [drop_append_left_of_le _ _ _ (by omega)]
      exact UnsignedVarint.decode_append t d1
    have d2b : UnsignedVarint.decode ((b ++ t).drop (1 + ms)) = some (hc2, hs) := by
      rw [drop_append_left_of_le _ _ _ (by omega)]
      exact UnsignedVarint.decode_append t d2
    have d3b : UnsignedVarint.decode ((b ++ t).drop (1 + ms + hs)) = some (ml, ls) := by
      rw [drop_append_left_of_le _ _ _ (by omega)]
      exact UnsignedVarint.decode_append t d3
    have hlenb : ¬ (b ++ t).length < 1 + ms + hs + ls + ml := by
      simp only [List.length_append]; omega
    rw [RawCid.read_v1 h2 hp2 h1b d1b d2b d3b hlenb,
      take_append_left_of_le _ _ _ (by omega)]

/-- Truncating the input after a successfully parsed CID does not change
the parse. -/
lemma RawCid.read_take {b : List Nat} {c : RawCid} {n : Nat} (m : Nat)
    (h : RawCid.try_read_bytes b = .ok (c, n)) (hm : n ≤ m) :
    RawCid.try_read_bytes (b.take m) = .ok (c, n) := by
  rcases RawCid.read_ok_cases h with ⟨hl, hp, h34, hc, hn⟩ |
    ⟨hl, hp, h1, mc, ms, hc2, hs, ml, ls, d1, d2, d3, hn, hlen, hc⟩
  · subst hn; subst hc
    obtain ⟨tl, hb⟩ := (isPrefixOf_pair_iff _ _ _).mp hp
    have h2 : ¬ (b.take m).length < 2 := by
      rw [List.length_take]; omega
    have hp2 : [0x12, 0x20].isPrefixOf (b.take m) = true := by
      rw [isPrefixOf_pair_iff]
      refine ⟨tl.take (m - 2), ?_⟩
      rw [hb]
      obtain ⟨m2, rfl⟩ : ∃ m2, m = m2 + 2 := ⟨m - 2, by omega⟩
      simp [List.take_succ_cons]
    have h34b : ¬ (b.take m).length < 34 := by
      rw [List.length_take]; omega
    rw [RawCid.read_v0 h2 hp2 h34b, List.take_take]
    have hmin : min 34 m = 34 := by omega
    rw [hmin]
  · subst hn; subst hc
    have hms := UnsignedVarint.decode_bounds d1
    have hhs := UnsignedVarint.decode_bounds d2
    have hls := UnsignedVarint.decode_bounds d3
    simp only [List.length_drop] at hms hhs hls
    have h2 : ¬ (b.take m).length < 2 := by
      rw [List.length_take]; omega
    obtain ⟨x, b2, hb⟩ : ∃ x b2, b = x :: b2 := by
      cases b with
      | nil => simp at hl
      | cons x b2 => exact ⟨x, b2, rfl⟩
    have hp2 : ¬ [0x12, 0x20].isPrefixOf (b.take m) = true := by
      rw [isPrefixOf_pair_iff]
      rintro ⟨tl, htl⟩
      apply hp
      rw [isPrefixOf_pair_iff]
      rw [hb] at htl ⊢
      cases b2 with
      | nil =>
        rw [hb] at hl
        simp only [List.length_cons, List.length_nil] at hl
        omega
      | cons y tl2 =>
        obtain ⟨m2, rfl⟩ : ∃ m2, m = m2 + 2 := ⟨m - 2, by omega⟩
        simp only [List.take_succ_cons, List.cons.injEq] at htl
        exact ⟨tl2, by rw [htl.1, htl.2.1]⟩
    have h1b : (b.take m).headI = 0x01 := by
      rw [hb] at h1 ⊢
      obtain ⟨m2, rfl⟩ : ∃ m2, m = m2 + 1 := ⟨m - 1, by omega⟩
      rw [List.take_succ_cons]
      exact h1
    have d1b : UnsignedVarint.decode ((b.take m).drop 1) = some (mc, ms) := by
      rw [List.drop_take]
      exact UnsignedVarint.decode_take _ d1 (by omega)
    have d2b : UnsignedVarint.decode ((b.take m).drop (1 + ms)) = some (hc2, hs) := by
      rw [List.drop_take]
      exact UnsignedVarint.decode_take _ d2 (by omega)
    have d3b : UnsignedVarint.decode ((b.take m).drop (1 + ms + hs)) = some (ml, ls) := by
      rw [List.drop_take]
      exact UnsignedVarint.decode_take _ d3 (by omega)
    have hlenb : ¬ (b.take m).length < 1 + ms + hs + ls + ml := by
      rw [List.length_take]; omega
    rw [RawCid.read_v1 h2 hp2 h1b d1b d2b d3b hlenb, List.take_take]
    have hmin : min (1 + ms + hs + ls + ml) m = 1 + ms + hs + ls + ml := by omega
    rw [hmin]

example :
    RawCid.try_read_bytes
      (0x12 :: 0x20 :: List.replicate 32 0xAB) = .ok (⟨0x12 :: 0x20 :: List.replicate 32 0xAB⟩, 34) := by
  decide

example :
    RawCid.try_read_bytes [1, 112, 18, 32, 44, 95, 104, 130, 98, 224, 236, 232, 86, 154,
      166, 249, 77, 96, 170, 213, 92, 168, 217, 216, 55, 52, 228, 167, 67, 13, 12, 255,
      101, 136] = .error .insufficientData := by
  decide

/-- The success branch of `Section.try_read_bytes`, assembled from its
guards. -/
lemma Section.read_ok {b : List Nat} {L vs cs : Nat} {c : RawCid}
    (d : UnsignedVarint.decode b = some (L, vs))
    (hmax : ¬ L > MAX_SECTION_SIZE)
    (hcid : RawCid.try_read_bytes (b.drop vs) = .ok (c, cs))
    (hcs : ¬ L < cs)
    (hlen : ¬ b.length < vs + cs + (L - cs)) :
    Section.try_read_bytes b =
      some (.ok (⟨L, c, ⟨(b.drop (vs + cs)).take (L - cs)⟩⟩, vs + cs + (L - cs))) := by
  unfold Section.try_read_bytes
  rw [d]
  simp only
  rw [if_neg hmax, hcid]
  simp only
  rw [if_neg hcs, if_neg hlen]

/-- The success branch of `Section.try_read_header_bytes`, assembled from
its guards. -/
lemma Section.read_header_ok {b : List Nat} {L vs cs : Nat} {c : RawCid}
    (d : UnsignedVarint.decode b = some (L, vs))
    (hmax : ¬ L > MAX_SECTION_SIZE)
    (hcid : RawCid.try_read_bytes (b.drop vs) = .ok (c, cs))
    (hcs : ¬ L < cs) :
    Section.try_read_header_bytes b =
      some (.ok (⟨L, c, ⟨[]⟩⟩, vs + cs + (L - cs))) := by
  unfold Section.try_read_header_bytes
  rw [d]
  simp only
  rw [if_neg hmax, hcid]
  simp only
  rw [if_neg hcs]

/-- Characterisation of a successful `Section.try_read_bytes`. -/
lemma Section.section_read_ok_cases {b : List Nat} {sec : Section} {n : Nat}
    (h : Section.try_read_bytes b = some (.ok (sec, n))) :
    ∃ vs cs, UnsignedVarint.decode b = some (sec.length, vs) ∧
      ¬ sec.length > MAX_SECTION_SIZE ∧
      RawCid.try_read_bytes (b.drop vs) = .ok (sec.cid, cs) ∧
      cs ≤ sec.length ∧
      n = vs + cs + (sec.length - cs) ∧
      n ≤ b.length ∧
      sec.block = ⟨(b.drop (vs + cs)).take (sec.length - cs)⟩ := by
  unfold Section.try_read_bytes at h
  match hd : UnsignedVarint.decode b with
  | none =>
    rw [hd] at h
    by_cases h16 : b.length > 16
    · rw [if_pos h16] at h; simp at h
    · rw [if_neg h16] at h; simp at h
  | some (L, vs) =>
    rw [hd] at h
    simp only at h
    by_cases hmax : L > MAX_SECTION_SIZE
    · rw [if_pos hmax] at h; simp at h
    rw [if_neg hmax] at h
    match hcid : RawCid.try_read_bytes (b.drop vs) with
    | .error .insufficientData => rw [hcid] at h; simp at h
    | .error .unsupportedVersion => rw [hcid] at h; simp at h
    | .ok (c, cs) =>
      rw [hcid] at h
      simp only at h
      by_cases hcs : L < cs
      · rw [if_pos hcs] at h; simp at h
      rw [if_neg hcs] at h
      by_cases hlen : b.length < vs + cs + (L - cs)
      · rw [if_pos hlen] at h; simp at h
      rw [if_neg hlen] at h
      simp only [Option.some.injEq, Except.ok.injEq, Prod.mk.injEq] at h
      obtain ⟨hsec, hn⟩ := h
      subst hn
      subst hsec
      refine ⟨vs, cs, ?_, hmax, ?_, ?_, rfl, ?_, rfl⟩
      · first | exact hd | rfl
      · exact hcid
      · show cs ≤ L
        omega
      · show vs + cs + (L - cs) ≤ b.length
        omega

/-- Characterisation of a successful `Section.try_read_header_bytes`. -/
lemma Section.read_header_ok_cases {b : List Nat} {sec : Section} {n : Nat}
    (h : Section.try_read_header_bytes b = some (.ok (sec, n))) :
    ∃ vs cs, UnsignedVarint.decode b = some (sec.length, vs) ∧
      ¬ sec.length > MAX_SECTION_SIZE ∧
      RawCid.try_read_bytes (b.drop vs) = .ok (sec.cid, cs) ∧
      cs ≤ sec.length ∧
      n = vs + cs + (sec.length - cs) ∧
      sec.block = ⟨[]⟩ := by
  unfold Section.try_read_header_bytes at h
  match hd : UnsignedVarint.decode b with
  | none =>
    rw [hd] at h
    by_cases h16 : b.length > 16
    · rw [if_pos h16] at h; simp at h
    · rw [if_neg h16] at h; simp at h
  | some (L, vs) =>
    rw [hd] at h
    simp only at h
    by_cases hmax : L > MAX_SECTION_SIZE
    · rw [if_pos hmax] at h; simp at h
    rw [if_neg hmax] at h
    match hcid : RawCid.try_read_bytes (b.drop vs) with
    | .error .insufficientData => rw [hcid] at h; simp at h
    | .error .unsupportedVersion => rw [hcid] at h; simp at h
    | .ok (c, cs) =>
      rw [hcid] at h
      simp only at h
      by_cases hcs : L < cs
      · rw [if_pos hcs] at h; simp at h
      rw [if_neg hcs] at h
      simp only [Option.some.injEq, Except.ok.injEq, Prod.mk.injEq] at h
      obtain ⟨hsec, hn⟩ := h
      subst hn
      subst hsec
      refine ⟨vs, cs, ?_, hmax, ?_, ?_, rfl, rfl⟩
      · first | exact hd | rfl
      · exact hcid
      · show cs ≤ L
        omega

/-- A successfully parsed section re-parses identically from its exact
byte range, and that range decomposes into varint prefix, CID bytes and
block bytes. -/
lemma Section.read_decomp {b : List Nat} {sec : Section} {n : Nat}
    (h : Section.try_read_bytes b = some (.ok (sec, n))) :
    n ≤ b.length ∧
    Section.try_read_bytes (b.take n) = some (.ok (sec, n)) ∧
    ∃ vb, b.take n = vb ++ sec.cid.bytes ++ sec.block.data ∧
      UnsignedVarint.decode vb = some (sec.length, vb.length) := by
  obtain ⟨vs, cs, hd, hmax, hcid, hcsle, hn, hnb, hblock⟩ := Section.section_read_ok_cases h
  have hvs := UnsignedVarint.decode_bounds hd
  have hcshape := RawCid.read_shape hcid
  simp only [List.length_drop] at hcshape
  have hbs : n = vs + cs + (sec.length - cs) := hn
  refine ⟨hnb, ?_, ?_⟩
  · have d2 : UnsignedVarint.decode (b.take n) = some (sec.length, vs) :=
      UnsignedVarint.decode_take n hd (by omega)
    have hcid2 : RawCid.try_read_bytes ((b.take n).drop vs) = .ok (sec.cid, cs) := by
      rw [List.drop_take]
      exact RawCid.read_take (n - vs) hcid (by omega)
    have hlen2 : ¬ (b.take n).length < vs + cs + (sec.length - cs) := by
      rw [List.length_take]; omega
    have := Section.read_ok d2 hmax hcid2 (by omega) hlen2
    rw [this, ← hbs]
    have hblock2 : ((b.take n).drop (vs + cs)).take (sec.length - cs) =
        (b.drop (vs + cs)).take (sec.length - cs) := by
      rw [List.drop_take, List.take_take]
      congr 1
      omega
    rw [hblock2]
    have hsec : sec = ⟨sec.length, sec.cid, ⟨(b.drop (vs + cs)).take (sec.length - cs)⟩⟩ := by
      cases sec with
      | mk l c bl => exact congrArg (Section.mk l c) hblock
    rw [← hsec]
  · refine ⟨b.take vs, ?_, ?_⟩
    · have h1 : b.take n = b.take vs ++ (b.drop vs).take (cs + (sec.length - cs)) := by
        rw [← List.take_add]
        congr 1
        omega
      have h2 : (b.drop vs).take (cs + (sec.length - cs)) =
          (b.drop vs).take cs ++ ((b.drop vs).drop cs).take (sec.length - cs) := by
        rw [← List.take_add]
      have h3 : (b.drop vs).drop cs = b.drop (vs + cs) := by
        rw [List.drop_drop]
      rw [h1, h2, h3, ← hcshape.1, hblock]
      simp
    · have hvspos : vs ≤ b.length := by omega
      have := UnsignedVarint.decode_take vs hd (le_refl vs)
      rwa [List.length_take, min_eq_left hvspos]

/-! ## The claims -/

/-- C2 (counterexample): the claim quantifies over every `(cid, block)`
pair, but for the two-byte cid `[0x00, 0x00]` (with `|cid| + |block| ≤ 2
MiB) re-parsing the serialised section fails with `InvalidCid
UnsupportedVersion` instead of returning the section. -/
theorem claim2_counterexample :
    Section.try_read_bytes (Section.to_bytes ⟨2, ⟨[0x00, 0x00]⟩, ⟨[]⟩⟩) =
      some (.error (.invalidCid .unsupportedVersion)) ∧
    ([0x00, 0x00] : List Nat).length + ([] : List Nat).length ≤ 2 ^ 21 ∧
    Section.try_read_bytes (Section.to_bytes ⟨2, ⟨[0x00, 0x00]⟩, ⟨[]⟩⟩) ≠
      some (.ok (⟨2, ⟨[0x00, 0x00]⟩, ⟨[]⟩⟩, 3)) := by
  refine ⟨by decide, by decide, by decide⟩

/-- C2 (amended): for every pair `(cid, block)` with
`|cid| + |block| ≤ 2 MiB` whose cid is a well-formed CID (its own parse
returns the cid itself, consuming all of it), serialising with `to_bytes`
and re-parsing with `try_read_bytes` returns an equal section and a
consumed-byte count equal to the serialised size (varint prefix + cid +
block). -/
theorem claim2_roundtrip (c b : List Nat) (hsize : c.length + b.length ≤ 2 ^ 21)
    (hcid : RawCid.try_read_bytes c = .ok (⟨c⟩, c.length)) :
    Section.try_read_bytes (Section.to_bytes ⟨c.length + b.length, ⟨c⟩, ⟨b⟩⟩) =
      some (.ok (⟨c.length + b.length, ⟨c⟩, ⟨b⟩⟩,
        (UnsignedVarint.encode (c.length + b.length)).length + c.length + b.length)) := by
  have hL : c.length + b.length < 2 ^ 64 := by omega
  have hbytes : Section.to_bytes ⟨c.length + b.length, ⟨c⟩, ⟨b⟩⟩ =
      UnsignedVarint.encode (c.length + b.length) ++ (c ++ b) := by
    simp [Section.to_bytes]
  rw [hbytes]
  have d : UnsignedVarint.decode (UnsignedVarint.encode (c.length + b.length) ++ (c ++ b)) =
      some (c.length + b.length, (UnsignedVarint.encode (c.length + b.length)).length) :=
    UnsignedVarint.decode_encode_append _ hL _
  have hdrop : (UnsignedVarint.encode (c.length + b.length) ++ (c ++ b)).drop
      (UnsignedVarint.encode (c.length + b.length)).length = c ++ b := List.drop_left _ _
  have hcid2 : RawCid.try_read_bytes ((UnsignedVarint.encode (c.length + b.length) ++
      (c ++ b)).drop (UnsignedVarint.encode (c.length + b.length)).length) =
      .ok (⟨c⟩, c.length) := by
    rw [hdrop]
    exact RawCid.read_append hcid
  have hmax : ¬ c.length + b.length > MAX_SECTION_SIZE := by
    simp only [MAX_SECTION_SIZE, MAX_BLOCK_SIZE]
    omega
  have hcs : ¬ c.length + b.length < c.length := by omega
  have hlen : ¬ (UnsignedVarint.encode (c.length + b.length) ++ (c ++ b)).length <
      (UnsignedVarint.encode (c.length + b.length)).length + c.length +
      (c.length + b.length - c.length) := by
    simp only [List.length_append]
    omega
  have hmain := Section.read_ok d hmax hcid2 hcs (by
    have hsub : c.length + b.length - c.length = b.length := by omega
    rw [hsub] at hlen ⊢
    exact fun hcon => hlen (by omega))
  rw [hmain]
  have hsub : c.length + b.length - c.length = b.length := by omega
  have hblock : ((UnsignedVarint.encode (c.length + b.length) ++ (c ++ b)).drop
      ((UnsignedVarint.encode (c.length + b.length)).length + c.length)).take
      (c.length + b.length - c.length) = b := by
    rw [hsub]
    have hassoc : UnsignedVarint.encode (c.length + b.length) ++ (c ++ b) =
        (UnsignedVarint.encode (c.length + b.length) ++ c) ++ b := by
      rw [List.append_assoc]
    rw [hassoc]
    have hlen2 : (UnsignedVarint.encode (c.length + b.length)).length + c.length =
        (UnsignedVarint.encode (c.length + b.length) ++ c).length := by
      rw [List.length_append]
    rw [hlen2, List.drop_left, List.take_length]
  rw [hblock, hsub]

/-- C2 (witness): the amended round-trip at a concrete well-formed CIDv0
and a one-byte block. -/
theorem claim2_roundtrip_witness :
    RawCid.try_read_bytes (0x12 :: 0x20 :: List.replicate 32 0xAA) =
      .ok (⟨0x12 :: 0x20 :: List.replicate 32 0xAA⟩,
        (0x12 :: 0x20 :: List.replicate 32 0xAA).length) ∧
    Section.try_read_bytes (Section.to_bytes
        ⟨(0x12 :: 0x20 :: List.replicate 32 0xAA).length + [0x42].length,
          ⟨0x12 :: 0x20 :: List.replicate 32 0xAA⟩, ⟨[0x42]⟩⟩) =
      some (.ok (⟨(0x12 :: 0x20 :: List.replicate 32 0xAA).length + [0x42].length,
          ⟨0x12 :: 0x20 :: List.replicate 32 0xAA⟩, ⟨[0x42]⟩⟩,
        (UnsignedVarint.encode ((0x12 :: 0x20 :: List.replicate 32 0xAA).length +
          [0x42].length)).length + (0x12 :: 0x20 :: List.replicate 32 0xAA).length +
          [0x42].length)) :=
  ⟨by decide, claim2_roundtrip (0x12 :: 0x20 :: List.replicate 32 0xAA) [0x42]
    (by decide) (by decide)⟩

/-- C3: varint round-trips for every unsigned value up to 65537 and the
listed signed values, and rejection of any input whose first ten bytes
all carry the continuation bit. -/
theorem claim3_varint_roundtrip :
    (∀ u : Nat, u ≤ 65537 →
      UnsignedVarint.decode (UnsignedVarint.encode u) =
        some (u, (UnsignedVarint.encode u).length)) ∧
    (∀ s ∈ ([-65537, -32768, -1, 0, 1, 32767, 65537] : List Int),
      SignedVarint.decode (SignedVarint.encode s) =
        some (s, (SignedVarint.encode s).length)) ∧
    (∀ l : List Nat, 10 ≤ l.length → (∀ b ∈ l.take 10, b &&& 128 ≠ 0) →
      UnsignedVarint.decode l = none ∧ SignedVarint.decode l = none) := by
  refine ⟨?_, by decide, ?_⟩
  · intro u hu
    exact UnsignedVarint.decode_encode u (by omega)
  · intro l h hc
    exact varint_decode_none_of_ten_cont h hc

/-- C3 (witness): the round-trip at the endpoints and the rejection of a
ten-continuation-byte input. -/
theorem claim3_varint_roundtrip_witness :
    UnsignedVarint.decode (UnsignedVarint.encode 65537) =
      some (65537, (UnsignedVarint.encode 65537).length) ∧
    SignedVarint.decode (SignedVarint.encode (-65537)) =
      some (-65537, (SignedVarint.encode (-65537)).length) ∧
    UnsignedVarint.decode (List.replicate 10 128 ++ [0]) = none :=
  ⟨claim3_varint_roundtrip.1 65537 (by decide),
   claim3_varint_roundtrip.2.1 (-65537) (by decide),
   (claim3_varint_roundtrip.2.2 (List.replicate 10 128 ++ [0]) (by decide) (by decide)).1⟩

/-- C4 (counterexample): the single byte `0x05` neither starts with
`0x12 0x20` nor with `0x01`, so the claim requires `UnsupportedVersion`,
but the parser requires two bytes before any case analysis and returns
`InsufficientData`. -/
theorem claim4_counterexample :
    ¬ [0x12, 0x20].isPrefixOf [0x05] = true ∧ ([0x05] : List Nat).headI ≠ 0x01 ∧
    RawCid.try_read_bytes [0x05] = .error .insufficientData ∧
    RawCid.try_read_bytes [0x05] ≠ .error .unsupportedVersion := by
  refine ⟨by decide, by decide, by decide, by decide⟩

/-- C4 (amended): the claimed case analysis of `RawCid::try_read_bytes`,
with the proviso that inputs shorter than two bytes return
`InsufficientData` before any case is examined. -/
theorem claim4_case_analysis (bytes : List Nat) :
    (bytes.length < 2 → RawCid.try_read_bytes bytes = .error .insufficientData) ∧
    (2 ≤ bytes.length → [0x12, 0x20].isPrefixOf bytes →
      (34 ≤ bytes.length → RawCid.try_read_bytes bytes = .ok (⟨bytes.take 34⟩, 34)) ∧
      (bytes.length < 34 → RawCid.try_read_bytes bytes = .error .insufficientData)) ∧
    (2 ≤ bytes.length → ¬ [0x12, 0x20].isPrefixOf bytes → bytes.headI = 0x01 →
      (UnsignedVarint.decode (bytes.drop 1) = none →
        RawCid.try_read_bytes bytes = .error .insufficientData) ∧
      (∀ mc ms, UnsignedVarint.decode (bytes.drop 1) = some (mc, ms) →
        (UnsignedVarint.decode (bytes.drop (1 + ms)) = none →
          RawCid.try_read_bytes bytes = .error .insufficientData) ∧
        (∀ hc hs, UnsignedVarint.decode (bytes.drop (1 + ms)) = some (hc, hs) →
          (UnsignedVarint.decode (bytes.drop (1 + ms + hs)) = none →
            RawCid.try_read_bytes bytes = .error .insufficientData) ∧
          (∀ ml ls, UnsignedVarint.decode (bytes.drop (1 + ms + hs)) = some (ml, ls) →
            (bytes.length < 1 + ms + hs + ls + ml →
              RawCid.try_read_bytes bytes = .error .insufficientData) ∧
            (1 + ms + hs + ls + ml ≤ bytes.length →
              RawCid.try_read_bytes bytes =
                .ok (⟨bytes.take (1 + ms + hs + ls + ml)⟩, 1 + ms + hs + ls + ml)))))) ∧
    (2 ≤ bytes.length → ¬ [0x12, 0x20].isPrefixOf bytes → bytes.headI ≠ 0x01 →
      RawCid.try_read_bytes bytes = .error .unsupportedVersion) := by
  refine ⟨?_, ?_, ?_, ?_⟩
  · intro h
    unfold RawCid.try_read_bytes
    rw [if_pos h]
  · intro hl hp
    constructor
    · intro h34
      exact RawCid.read_v0 (by omega) hp (by omega)
    · intro h34
      unfold RawCid.try_read_bytes
      rw [if_neg (by omega), if_pos hp, if_pos h34]
  · intro hl hp h1
    refine ⟨?_, ?_⟩
    · intro hd1
      unfold RawCid.try_read_bytes
      rw [if_neg (by omega), if_neg hp, if_pos h1, hd1]
    · intro mc ms hd1
      refine ⟨?_, ?_⟩
      · intro hd2
        unfold RawCid.try_read_bytes
        rw [if_neg (by omega), if_neg hp, if_pos h1, hd1]
        simp only
        rw [hd2]
      · intro hc hs hd2
        refine ⟨?_, ?_⟩
        · intro hd3
          unfold RawCid.try_read_bytes
          rw [if_neg (by omega), if_neg hp, if_pos h1, hd1]
          simp only
          rw [hd2]
          simp only
          rw [hd3]
        · intro ml ls hd3
          refine ⟨?_, ?_⟩
          · intro hlen
            unfold RawCid.try_read_bytes
            rw [if_neg (by omega), if_neg hp, if_pos h1, hd1]
            simp only
            rw [hd2]
            simp only
            rw [hd3]
            simp only
            rw [if_pos hlen]
          · intro hlen
            exact RawCid.read_v1 (by omega) hp h1 hd1 hd2 hd3 (by omega)
  · intro hl hp h1
    unfold RawCid.try_read_bytes
    rw [if_neg (by omega), if_neg hp, if_neg h1]

/-- C4 (witness): the case analysis instantiated at a concrete CIDv0. -/
theorem claim4_case_analysis_witness :
    RawCid.try_read_bytes (0x12 :: 0x20 :: List.replicate 32 0xCD) =
      .ok (⟨(0x12 :: 0x20 :: List.replicate 32 0xCD).take 34⟩, 34) :=
  ((claim4_case_analysis (0x12 :: 0x20 :: List.replicate 32 0xCD)).2.1
    (by decide) (by decide)).1 (by decide)

/-- C5 (counterexample): serialisation does not prepend `0x00` to the
wrapped byte string (the wrapped bytes equal the raw CID, so the byte
string is not one byte longer), and deserialisation does not strip a
leading `0x00`. -/
theorem claim5_counterexample :
    RawCid.serializeCbor ⟨[0x01, 0x55, 0x02, 0x03, 0x04]⟩ ≠
      CborValue.tag 42 (.bytes (0x00 :: [0x01, 0x55, 0x02, 0x03, 0x04])) ∧
    RawCid.deserializeCbor (CborValue.tag 42 (.bytes [0x00, 0x07])) = .ok ⟨[0x00, 0x07]⟩ := by
  constructor
  · intro h
    simp only [RawCid.serializeCbor, CborValue.tag.injEq, CborValue.bytes.injEq] at h
    exact absurd h.2 (by decide)
  · rfl

/-- C5 (amended): a CID is serialised as CBOR tag 42 wrapping a byte
string holding exactly the raw CID bytes (same length, no `0x00` prefix);
deserialisation accepts exactly tag 42 and uses the bytes unchanged, so
serialise-then-deserialise is the identity. -/
theorem claim5_cbor_framing :
    (∀ c : RawCid, RawCid.serializeCbor c = .tag 42 (.bytes c.bytes)) ∧
    (∀ c : RawCid, RawCid.deserializeCbor (RawCid.serializeCbor c) = .ok c) ∧
    (∀ (t : Nat) (b : List Nat), t ≠ 42 →
      RawCid.deserializeCbor (.tag t (.bytes b)) = .error .invalidCidFormat) ∧
    (∀ c : RawCid, ∃ wrapped, RawCid.serializeCbor c = .tag 42 (.bytes wrapped) ∧
      wrapped.length = c.bytes.length) := by
  refine ⟨fun c => rfl, ?_, ?_, fun c => ⟨c.bytes, rfl, rfl⟩⟩
  · intro c
    cases c
    rfl
  · intro t b ht
    simp only [RawCid.deserializeCbor]
    rw [if_neg ht]

/-- C5 (witness): the tag check rejecting tag 41 at a concrete value. -/
theorem claim5_cbor_framing_witness :
    RawCid.deserializeCbor (CborValue.tag 41 (.bytes [0x07])) =
      .error .invalidCidFormat :=
  claim5_cbor_framing.2.2.1 41 [0x07] (by decide)

/-- C10: whenever `try_read_bytes` succeeds with `(sec, n)`,
`try_read_header_bytes` succeeds on the same input with the same total
size `n`, the same declared length and CID and an empty block; moreover
it succeeds already on the prefix that ends before the payload bytes. -/
theorem claim10_header_consistency (bytes : List Nat) (sec : Section) (n : Nat)
    (h : Section.try_read_bytes bytes = some (.ok (sec, n))) :
    Section.try_read_header_bytes bytes = some (.ok (⟨sec.length, sec.cid, ⟨[]⟩⟩, n)) ∧
    Section.try_read_header_bytes (bytes.take (n - sec.block.data.length)) =
      some (.ok (⟨sec.length, sec.cid, ⟨[]⟩⟩, n)) := by
  obtain ⟨vs, cs, hd, hmax, hcid, hcsle, hn, hnb, hblock⟩ := Section.section_read_ok_cases h
  have hvs := UnsignedVarint.decode_bounds hd
  have hcshape := RawCid.read_shape hcid
  simp only [List.length_drop] at hcshape
  have hblen : sec.block.data.length = sec.length - cs := by
    rw [hblock]
    simp only [List.length_take, List.length_drop]
    omega
  constructor
  · have := Section.read_header_ok hd hmax hcid (by omega)
    rw [this, ← hn]
  · have hncut : n - sec.block.data.length = vs + cs := by omega
    rw [hncut]
    have d2 : UnsignedVarint.decode (bytes.take (vs + cs)) = some (sec.length, vs) :=
      UnsignedVarint.decode_take (vs + cs) hd (by omega)
    have hcid2 : RawCid.try_read_bytes ((bytes.take (vs + cs)).drop vs) =
        .ok (sec.cid, cs) := by
      rw [List.drop_take]
      exact RawCid.read_take (vs + cs - vs) hcid (by omega)
    have := Section.read_header_ok d2 hmax hcid2 (by omega)
    rw [this, ← hn]

/-- C10 (witness): the header/full consistency at a concrete section. -/
theorem claim10_header_consistency_witness :
    Section.try_read_bytes demoSection =
      some (.ok (⟨35, ⟨0x12 :: 0x20 :: List.replicate 32 0xAA⟩, ⟨[0x42]⟩⟩, 36)) ∧
    Section.try_read_header_bytes demoSection =
      some (.ok (⟨35, ⟨0x12 :: 0x20 :: List.replicate 32 0xAA⟩, ⟨[]⟩⟩, 36)) ∧
    Section.try_read_header_bytes (demoSection.take (36 - 1)) =
      some (.ok (⟨35, ⟨0x12 :: 0x20 :: List.replicate 32 0xAA⟩, ⟨[]⟩⟩, 36)) :=
  ⟨by decide,
   (claim10_header_consistency demoSection
     ⟨35, ⟨0x12 :: 0x20 :: List.replicate 32 0xAA⟩, ⟨[0x42]⟩⟩ 36 (by decide)).1,
   (claim10_header_consistency demoSection
     ⟨35, ⟨0x12 :: 0x20 :: List.replicate 32 0xAA⟩, ⟨[0x42]⟩⟩ 36 (by decide)).2⟩

/-- C6: while fewer than 11 bytes have accumulated, no format is chosen;
at 11 bytes the reader takes the v2 branch exactly when the first 11
bytes equal the pragma (any single-bit flip diverts to v1), and hands all
accumulated bytes to the chosen inner reader at offset 0. -/
theorem claim6_format_detection (acc buf : List Nat) :
    ((acc ++ buf).length < 11 →
      Unified.CarReader.receive_data (.unclear acc) buf acc.length =
        .unclear (acc ++ buf)) ∧
    (11 ≤ (acc ++ buf).length → (acc ++ buf).take 11 = V2.CAR_V2_PRAGMA →
      Unified.CarReader.receive_data (.unclear acc) buf acc.length =
        .v2 (V2.CarReader.new.receive_data (acc ++ buf) 0)) ∧
    (11 ≤ (acc ++ buf).length → (acc ++ buf).take 11 ≠ V2.CAR_V2_PRAGMA →
      Unified.CarReader.receive_data (.unclear acc) buf acc.length =
        .v1 (V1.CarReader.new.receive_data (acc ++ buf) 0)) ∧
    (∀ i k, i < 11 → k < 8 →
      (acc ++ buf).take 11 =
        V2.CAR_V2_PRAGMA.set i (V2.CAR_V2_PRAGMA.getD i 0 ^^^ 2 ^ k) →
      Unified.CarReader.receive_data (.unclear acc) buf acc.length =
        .v1 (V1.CarReader.new.receive_data (acc ++ buf) 0)) := by
  have hpfx : ∀ l : List Nat, V2.CAR_V2_PRAGMA.isPrefixOf l = true ↔
      l.take V2.CAR_V2_PRAGMA.length = V2.CAR_V2_PRAGMA := by
    intro l
    rw [List.isPrefixOf_iff_prefix, List.prefix_iff_eq_take]
    exact eq_comm
  have hplen : V2.CAR_V2_PRAGMA.length = 11 := by decide
  have hstep : Unified.CarReader.receive_data (.unclear acc) buf acc.length =
      match Unified.determine_format (acc ++ buf) with
      | some .v1 => .v1 (V1.CarReader.new.receive_data (acc ++ buf) 0)
      | some .v2 => .v2 (V2.CarReader.new.receive_data (acc ++ buf) 0)
      | none => .unclear (acc ++ buf) := by
    simp only [Unified.CarReader.receive_data]
    rw [if_neg (by omega)]
  have hflip : ∀ i, i < 11 → ∀ k, k < 8 →
      V2.CAR_V2_PRAGMA.set i (V2.CAR_V2_PRAGMA.getD i 0 ^^^ 2 ^ k) ≠
        V2.CAR_V2_PRAGMA := by decide
  refine ⟨?_, ?_, ?_, ?_⟩
  · intro hlen
    rw [hstep]
    unfold Unified.determine_format
    rw [if_neg (by omega)]
  · intro hlen htake
    rw [hstep]
    unfold Unified.determine_format
    rw [if_pos (by omega), if_pos ((hpfx _).mpr (by rw [hplen]; exact htake))]
  · intro hlen htake
    rw [hstep]
    unfold Unified.determine_format
    rw [if_pos (by omega), if_neg ?_]
    intro hcon
    exact htake (by rw [← hplen]; exact (hpfx _).mp hcon)
  · intro i k hi hk htake
    have hlen : 11 ≤ (acc ++ buf).length := by
      have := congrArg List.length htake
      simp only [List.length_take] at this
      have hset : (V2.CAR_V2_PRAGMA.set i (V2.CAR_V2_PRAGMA.getD i 0 ^^^ 2 ^ k)).length =
          11 := by
        rw [List.length_set]
        exact hplen
      omega
    rw [hstep]
    unfold Unified.determine_format
    rw [if_pos (by omega), if_neg ?_]
    intro hcon
    have := (hpfx _).mp hcon
    rw [hplen, htake] at this
    exact hflip i hi k hk this

set_option maxRecDepth 10000 in
/-- C6 (witness): the concrete stream takes the v2 branch; eleven zero
bytes take the v1 branch; flipping the lowest bit of the pragma's first
byte takes the v1 branch. -/
theorem claim6_format_detection_witness :
    Unified.CarReader.receive_data (.unclear []) demoStream ([] : List Nat).length =
      .v2 (V2.CarReader.new.receive_data ([] ++ demoStream) 0) ∧
    Unified.CarReader.receive_data (.unclear []) (List.replicate 11 0)
        ([] : List Nat).length =
      .v1 (V1.CarReader.new.receive_data ([] ++ List.replicate 11 0) 0) ∧
    Unified.CarReader.receive_data (.unclear [])
        (V2.CAR_V2_PRAGMA.set 0 (V2.CAR_V2_PRAGMA.getD 0 0 ^^^ 2 ^ 0))
        ([] : List Nat).length =
      .v1 (V1.CarReader.new.receive_data
        ([] ++ V2.CAR_V2_PRAGMA.set 0 (V2.CAR_V2_PRAGMA.getD 0 0 ^^^ 2 ^ 0)) 0) :=
  ⟨(claim6_format_detection [] demoStream).2.1 (by decide) (by decide),
   (claim6_format_detection [] (List.replicate 11 0)).2.2.1 (by decide) (by decide),
   (claim6_format_detection []
     (V2.CAR_V2_PRAGMA.set 0 (V2.CAR_V2_PRAGMA.getD 0 0 ^^^ 2 ^ 0))).2.2.2 0 0
     (by decide) (by decide) (by decide)⟩

/-- C9: in `HeaderV1`, an inner `InsufficientData(o, hint)` from
`read_section` is mapped to `EndOfSections` exactly when the missing
bytes lie at or beyond `data_offset + data_size`, and is otherwise
re-emitted with the offset shifted by `data_offset`. -/
theorem claim9_end_of_sections (header : V2.CarV2Header) (inner : V1.CarReader)
    (o hint : Nat) (inner2 : V1.CarReader)
    (h : inner.read_section = some (.error (.insufficientData o hint), inner2)) :
    (header.data_offset + header.data_size ≤ header.data_offset + o →
      V2.CarReader.read_section (.headerV1 header inner) =
        some (.error .endOfSections, .headerV1 header inner2)) ∧
    (header.data_offset + o < header.data_offset + header.data_size →
      V2.CarReader.read_section (.headerV1 header inner) =
        some (.error (.insufficientData (header.data_offset + o) hint),
          .headerV1 header inner2)) := by
  constructor
  · intro hge
    simp only [V2.CarReader.read_section]
    rw [h]
    simp only [V2.mapV1SectionError]
    rw [if_neg (by omega)]
  · intro hlt
    simp only [V2.CarReader.read_section]
    rw [h]
    simp only [V2.mapV1SectionError]
    rw [if_pos (by omega)]

/-- C9 (witness): the mapping at a drained inner reader whose buffered
position sits past (3-byte window) and inside (10-byte window) the
payload. -/
theorem claim9_end_of_sections_witness :
    V1.CarReader.read_section ⟨[], 5, some (⟨1, []⟩, 5)⟩ =
      some (.error (.insufficientData 5 0), ⟨[], 5, some (⟨1, []⟩, 5)⟩) ∧
    V2.CarReader.read_section (.headerV1 ⟨0, 51, 3, 0⟩ ⟨[], 5, some (⟨1, []⟩, 5)⟩) =
      some (.error .endOfSections, .headerV1 ⟨0, 51, 3, 0⟩ ⟨[], 5, some (⟨1, []⟩, 5)⟩) ∧
    V2.CarReader.read_section (.headerV1 ⟨0, 51, 10, 0⟩ ⟨[], 5, some (⟨1, []⟩, 5)⟩) =
      some (.error (.insufficientData (51 + 5) 0),
        .headerV1 ⟨0, 51, 10, 0⟩ ⟨[], 5, some (⟨1, []⟩, 5)⟩) :=
  ⟨by decide,
   (claim9_end_of_sections ⟨0, 51, 3, 0⟩ ⟨[], 5, some (⟨1, []⟩, 5)⟩ 5 0
     ⟨[], 5, some (⟨1, []⟩, 5)⟩ (by decide)).1 (by decide),
   (claim9_end_of_sections ⟨0, 51, 10, 0⟩ ⟨[], 5, some (⟨1, []⟩, 5)⟩ 5 0
     ⟨[], 5, some (⟨1, []⟩, 5)⟩ (by decide)).2 (by decide)⟩

/-- C8: with `data_offset = 51` and `data_size = 10`, delivering 20 bytes
at position 51 forwards all 20 bytes to the inner v1 reader — the clamp
`min(buf.len(), v1_data_end - pos)` uses the absolute window end against
the already-rebased position, so ten bytes beyond the payload window are
forwarded, where the specified clamp would forward only ten bytes. -/
theorem claim8_clamp_overflow :
    V2.CarReader.receive_data (.headerV2 ⟨0, 51, 10, 0⟩ V1.CarReader.new)
        (List.replicate 20 7) 51 =
      .headerV2 ⟨0, 51, 10, 0⟩ ⟨List.replicate 20 7, 0, none⟩ ∧
    (List.replicate 20 7).length = 20 ∧ (⟨0, 51, 10, 0⟩ : V2.CarV2Header).data_size = 10 := by
  refine ⟨by decide, by decide, by decide⟩

/-- Offset exactness of the v1 `read_section`: under the invariant that
the buffer holds the stream bytes at `start`, a returned section re-parses
byte-identically from the stream range named by its location. -/
lemma v1_read_section_exact (S : List Nat) (r : V1.CarReader) (ls : LocatableSection)
    (r2 : V1.CarReader) (hinv : r.data = (S.drop r.start).take r.data.length)
    (h : r.read_section = some (.ok ls, r2)) :
    Section.try_read_bytes ((S.drop ls.location.offset).take ls.location.length) =
      some (.ok (ls.sect, ls.location.length)) ∧
    ∃ vb, (S.drop ls.location.offset).take ls.location.length =
        vb ++ ls.sect.cid.bytes ++ ls.sect.block.data ∧
      UnsignedVarint.decode vb = some (ls.sect.length, vb.length) := by
  simp only [V1.CarReader.read_section] at h
  split at h
  · simp at h
  · match hsec : Section.try_read_bytes r.data with
    | none => rw [hsec] at h; simp at h
    | some (.error .insufficientData) => rw [hsec] at h; simp at h
    | some (.error (.invalidCid e)) => rw [hsec] at h; simp at h
    | some (.error (.invalidSize k)) => rw [hsec] at h; simp at h
    | some (.ok (sec, size)) =>
      rw [hsec] at h
      simp only [Option.some.injEq, Prod.mk.injEq, Except.ok.injEq] at h
      obtain ⟨hls, -⟩ := h
      subst hls
      obtain ⟨hle, htake, vb, hsplit, hvb⟩ := Section.read_decomp hsec
      have hoff : r.start + size - size = r.start := by omega
      have hdata : r.data.take size = (S.drop r.start).take size := by
        conv_lhs => rw [hinv]
        rw [List.take_take, min_eq_left hle]
      show Section.try_read_bytes ((S.drop (r.start + size - size)).take size) =
          some (.ok (sec, size)) ∧
        ∃ vb, (S.drop (r.start + size - size)).take size =
            vb ++ sec.cid.bytes ++ sec.block.data ∧
          UnsignedVarint.decode vb = some (sec.length, vb.length)
      rw [hoff, ← hdata]
      exact ⟨htake, vb, hsplit, hvb⟩

/-- C7: for every section successfully returned by `read_section` — v1
directly, or v2 after adding `data_offset` to the inner offset — the
returned location is exact: the stream bytes in
`[offset, offset + length)` re-parse to the identical section and consist
of its varint prefix, CID bytes and block bytes. -/
theorem claim7_offset_exactness :
    (∀ (S : List Nat) (r : V1.CarReader) (ls : LocatableSection) (r2 : V1.CarReader),
      r.data = (S.drop r.start).take r.data.length →
      r.read_section = some (.ok ls, r2) →
      Section.try_read_bytes ((S.drop ls.location.offset).take ls.location.length) =
        some (.ok (ls.sect, ls.location.length)) ∧
      ∃ vb, (S.drop ls.location.offset).take ls.location.length =
          vb ++ ls.sect.cid.bytes ++ ls.sect.block.data ∧
        UnsignedVarint.decode vb = some (ls.sect.length, vb.length)) ∧
    (∀ (S : List Nat) (header : V2.CarV2Header) (inner : V1.CarReader)
        (ls : LocatableSection) (st2 : V2.CarReader),
      inner.data = ((S.drop header.data_offset).drop inner.start).take inner.data.length →
      V2.CarReader.read_section (.headerV1 header inner) = some (.ok ls, st2) →
      Section.try_read_bytes ((S.drop ls.location.offset).take ls.location.length) =
        some (.ok (ls.sect, ls.location.length)) ∧
      ∃ vb, (S.drop ls.location.offset).take ls.location.length =
          vb ++ ls.sect.cid.bytes ++ ls.sect.block.data ∧
        UnsignedVarint.decode vb = some (ls.sect.length, vb.length)) := by
  constructor
  · intro S r ls r2 hinv h
    exact v1_read_section_exact S r ls r2 hinv h
  · intro S header inner ls st2 hinv h
    simp only [V2.CarReader.read_section] at h
    match hres : inner.read_section with
    | none => rw [hres] at h; simp at h
    | some (.error e, inner2) => rw [hres] at h; simp at h
    | some (.ok ls0, inner2) =>
      rw [hres] at h
      simp only [Option.some.injEq, Prod.mk.injEq, Except.ok.injEq] at h
      obtain ⟨hls, -⟩ := h
      subst hls
      have hmain := v1_read_section_exact (S.drop header.data_offset) inner ls0 inner2
        hinv hres
      have hdrop : (S.drop header.data_offset).drop ls0.location.offset =
          S.drop (header.data_offset + ls0.location.offset) := by
        rw [List.drop_drop]
      rw [hdrop] at hmain
      exact hmain

set_option maxRecDepth 10000 in
/-- C7 (witness): a v1 reader holding the demo section at stream offset 0
and the v2 wrapper over the demo stream both return exact locations. -/
theorem claim7_offset_exactness_witness :
    Section.try_read_bytes ((demoSection.drop 0).take 36) =
      some (.ok (⟨35, ⟨0x12 :: 0x20 :: List.replicate 32 0xAA⟩, ⟨[0x42]⟩⟩, 36)) ∧
    (∃ vb, (demoSection.drop 0).take 36 =
        vb ++ (0x12 :: 0x20 :: List.replicate 32 0xAA) ++ [0x42] ∧
      UnsignedVarint.decode vb = some (35, vb.length)) := by
  have h := claim7_offset_exactness.1 demoSection
    ⟨demoSection, 0, some (⟨1, []⟩, 0)⟩
    ⟨⟨35, ⟨0x12 :: 0x20 :: List.replicate 32 0xAA⟩, ⟨[0x42]⟩⟩, ⟨0, 36⟩⟩
    ⟨[], 36, some (⟨1, []⟩, 0)⟩ (by decide) (by decide)
  exact h

set_option maxRecDepth 10000 in
/-- C1: chunked and one-shot delivery of the same complete CAR v2 stream
decode different section sequences.  One-shot delivery yields the single
payload section; delivering the same bytes as the two in-order chunks
`[0, 51)` and `[51, 141)` (at their correct absolute positions, looping
on `InsufficientData`) yields that section plus a spurious second section
assembled from the index-region bytes beyond the v1 payload window, which
the `HeaderV2`/`HeaderV1` `receive_data` clamp forwards to the inner v1
reader. -/
theorem claim1_chunked_vs_oneshot :
    demoChunked ≠ demoOneShot ∧
    demoOneShot =
      [⟨⟨35, ⟨0x12 :: 0x20 :: List.replicate 32 0xAA⟩, ⟨[0x42]⟩⟩, ⟨69, 36⟩⟩] ∧
    demoChunked =
      [⟨⟨35, ⟨0x12 :: 0x20 :: List.replicate 32 0xAA⟩, ⟨[0x42]⟩⟩, ⟨69, 36⟩⟩,
        ⟨⟨35, ⟨0x12 :: 0x20 :: List.replicate 32 0xBB⟩, ⟨[0x43]⟩⟩, ⟨105, 36⟩⟩] := by
  refine ⟨by decide, by decide, by decide⟩

end Navira
